import Mathlib

/-
Verification of the pair-based clean-output CSV compiler (src/myscript.py).

Shallow embedding notes:
  * A pandas DataFrame is modelled as `Table`: a list of column names and a
    list of rows, each row a list of `Cell`s aligned with the columns.
  * `pd.concat(..., ignore_index=True)` is `pdConcat`: the column set is the
    union (in order of first appearance), rows are reindexed to the union
    with `Cell.na` (NaN) filling columns absent from a source.
  * `pd.to_numeric(col, errors='coerce')` is `coercePartNo` /
    `toNumericCell`: numeric strings are modelled as (optionally signed)
    integer literals; anything unparseable becomes `Cell.na`.
  * `df.sort_values(by='PART_NO', ascending=True)` follows pandas nargsort:
    rows with a parseable (non-NaN) key are reordered by an argsort kernel
    applied to their key list, rows with NaN keys are appended afterwards in
    their original relative order.  The kernel defaults to numpy's
    `aquicksort` (kind='quicksort'), faithfully ported below as
    `npAquicksort`; theorems that hold for any kernel returning a sorting
    permutation take that property (`IsArgsortOf`) as a hypothesis.
  * Reading back a CSV the script itself just wrote is modelled as the
    identity on tables; `load` (pd.read_csv of an input file) is an
    abstract parameter returning `Except String Table` so that parse
    failures can be modelled (`try/except` around pair compilation).
-/

/-- A cell of a table: a text value, a numeric value, or missing (NaN). -/
inductive Cell where
  | str : String → Cell
  | num : Int → Cell
  | na : Cell
deriving DecidableEq, Repr

/-- Accumulate a decimal value; fails on any non-digit character. -/
def digitsValAux : List Char → Nat → Option Nat
  | [], acc => some acc
  | c :: rest, acc =>
    if c.isDigit then digitsValAux rest (acc * 10 + (c.toNat - '0'.toNat)) else none

/-- Parse a nonempty string of decimal digits. -/
def digitsVal : List Char → Option Nat
  | [] => none
  | cs => digitsValAux cs 0

/-- Model of numeric parsing as performed by `pd.to_numeric`: an optionally
negated integer literal (the numeric inputs exercised by the script are
integral part numbers). -/
def parseIntStr (s : String) : Option Int :=
  match s.toList with
  | '-' :: rest => (digitsVal rest).map (fun n => -(n : Int))
  | l => (digitsVal l).map (fun n => (n : Int))

/-- `pd.to_numeric(x, errors='coerce')` on one cell: numbers stay, NaN stays,
text becomes its numeric value or NaN when parsing fails. -/
def toNumericCell : Cell → Cell
  | Cell.num n => Cell.num n
  | Cell.na => Cell.na
  | Cell.str s =>
    match parseIntStr s with
    | some n => Cell.num n
    | none => Cell.na

/-- How `df.to_csv` serialises one cell: NaN becomes the empty field. -/
def csvCell : Cell → String
  | Cell.na => ""
  | Cell.num n => toString n
  | Cell.str s => s

/-- Index of a column label (first occurrence), as used for label lookup. -/
def colIdx : List String → String → Option Nat
  | [], _ => none
  | c0 :: rest, c => if c0 = c then some 0 else (colIdx rest c).map (· + 1)

/-- Value of column `c` in a row laid out along `cols`; NaN when absent. -/
def getCell (cols : List String) (row : List Cell) (c : String) : Cell :=
  match colIdx cols c with
  | some i => row.getD i Cell.na
  | none => Cell.na

/-- A DataFrame: ordered column labels and rows aligned with them. -/
structure Table where
  cols : List String
  rows : List (List Cell)
deriving DecidableEq, Repr

/-- Union of the column lists in order of first appearance, as produced by
`pd.concat` on the non-concatenation axis. -/
def unionCols (ts : List Table) : List String :=
  ts.foldl (fun acc t => acc ++ t.cols.filter (fun c => !acc.contains c)) []

/-- Re-lay a row from `cols` onto `newCols`, filling absent columns with NaN. -/
def reindexRow (cols : List String) (row : List Cell) (newCols : List String) : List Cell :=
  newCols.map (getCell cols row)

/-- `pd.concat(ts, ignore_index=True)`: union columns, all rows in order,
missing values NaN. -/
def pdConcat (ts : List Table) : Table :=
  ⟨unionCols ts, ((ts.map (fun t => t.rows.map (fun r => reindexRow t.cols r (unionCols ts))))).flatten⟩

/-- `compiled_pair_df = pd.concat([df_detail, df_sup], ignore_index=True)`. -/
def compiledPairDf (dfDetail dfSup : Table) : Table :=
  pdConcat [dfDetail, dfSup]

/-- `final_master_df['PART_NO'] = pd.to_numeric(final_master_df['PART_NO'],
errors='coerce')`: replace every cell of the PART_NO column by its coercion. -/
def coercePartNo (t : Table) : Table :=
  match colIdx t.cols "PART_NO" with
  | some i => ⟨t.cols, t.rows.map (fun r => r.set i (toNumericCell (r.getD i Cell.na)))⟩
  | none => t

/-- Sort key of one cell: numeric values sort, anything else is NaN/undefined. -/
def cellKey : Cell → Option Int
  | Cell.num n => some n
  | _ => none

/-- Sort key of a row: numeric interpretation of its PART_NO cell. -/
def rowKey (cols : List String) (row : List Cell) : Option Int :=
  cellKey (getCell cols row "PART_NO")

/-- The PART_NO keys of a table's rows, in row order. -/
def keyListOf (t : Table) : List (Option Int) :=
  t.rows.map (rowKey t.cols)

/-- Ordering on keys used by the ascending, NaN-last sort: numeric compare
when both parse; NaN after everything; NaN alongside NaN allowed. -/
def keyLeB : Option Int → Option Int → Bool
  | some x, some y => decide (x ≤ y)
  | some _, none => true
  | none, some _ => false
  | none, none => true

/-- Strict version of `keyLeB`; only two parseable keys can compare strictly. -/
def keyLtB : Option Int → Option Int → Bool
  | some x, some y => decide (x < y)
  | _, _ => false

/-- An argsort kernel: given the non-NaN keys it returns the positions that
enumerate them in ascending order (numpy `argsort`). -/
def SortKernel : Type := List Int → List Nat

/-- `out` is a valid argsort of `ks`: a permutation of all positions that
lists the keys in non-decreasing order.  This is exactly what pandas/numpy
guarantee for every `kind`; which permutation is produced among equal keys
is implementation defined for the default kind='quicksort'. -/
def IsArgsortOf (out : List Nat) (ks : List Int) : Prop :=
  out.Perm (List.range ks.length) ∧ (out.map (fun j => ks.getD j 0)).Pairwise (· ≤ ·)

instance (out : List Nat) (ks : List Int) : Decidable (IsArgsortOf out ks) := by
  unfold IsArgsortOf
  infer_instance

/-- Rows tagged with their PART_NO key, in original order. -/
def taggedRows (t : Table) : List (Option Int × List Cell) :=
  t.rows.map (fun r => (rowKey t.cols r, r))

/-- The tagged rows whose key parses (the mask `~isna` of pandas nargsort). -/
def nonNanTagged (t : Table) : List (Option Int × List Cell) :=
  (taggedRows t).filter (fun p => p.1.isSome)

/-- The tagged rows whose key is NaN, in original order (`na_position='last'`
appends exactly these, unpermuted). -/
def nanTagged (t : Table) : List (Option Int × List Cell) :=
  (taggedRows t).filter (fun p => !p.1.isSome)

/-- The list of keys handed to the argsort kernel. -/
def kernelKeys (t : Table) : List Int :=
  (nonNanTagged t).filterMap (fun p => p.1)

/-- `df.sort_values(by='PART_NO', ascending=True)` following pandas nargsort:
apply the kernel's permutation to the rows with parseable keys, then append
the NaN-keyed rows in their original relative order. -/
def sortValuesPartNo (k : SortKernel) (t : Table) : Table :=
  ⟨t.cols,
    ((k (kernelKeys t)).filterMap (fun j => (nonNanTagged t)[j]?)).map (fun p => p.2)
      ++ (nanTagged t).map (fun p => p.2)⟩

/-- Lines 101-104 of the script: coerce PART_NO to numeric, then sort by it. -/
def masterSortStep (k : SortKernel) (t : Table) : Table :=
  sortValuesPartNo k (coercePartNo t)

/-- Step B of the script: build the folder master from the compiled pair
tables (re-read from disk, modelled as the tables themselves); sort when a
PART_NO column exists, otherwise keep concatenation order. -/
def finalMaster (k : SortKernel) (tables : List Table) : Option Table :=
  match tables with
  | [] => none
  | _ =>
    let m := pdConcat tables
    some (if m.cols.contains "PART_NO" then masterSortStep k m else m)

/-- The optional detail/sup paths recorded for one base key. -/
structure PairPaths where
  detail : Option String := none
  sup : Option String := none
deriving DecidableEq, Repr

/-- Accumulator of Step A over one folder: compiled tables in order, number
of complete pairs seen, and the base names of pairs that failed. -/
structure FolderOutcome where
  compiled : List Table
  pairsFound : Nat
  warnings : List String
deriving Repr

/-- One iteration of the Step A loop: a complete pair is counted; if both
files load it is compiled and recorded, otherwise (the `except` branch) a
warning naming the pair is recorded and processing continues. -/
def stepPair (load : String → Except String Table) (acc : FolderOutcome)
    (bp : String × PairPaths) : FolderOutcome :=
  match bp.2.detail, bp.2.sup with
  | some dp, some sp =>
    let acc1 : FolderOutcome :=
      { acc with pairsFound := acc.pairsFound + 1 }
    match load dp, load sp with
    | Except.ok dfDetail, Except.ok dfSup =>
      { acc1 with compiled := acc1.compiled ++ [compiledPairDf dfDetail dfSup] }
    | _, _ => { acc1 with warnings := acc1.warnings ++ [bp.1] }
  | _, _ => acc

/-- Step A over all base keys of one folder. -/
def compileFolderPairs (load : String → Except String Table)
    (pairs : List (String × PairPaths)) : FolderOutcome :=
  pairs.foldl (stepPair load) ⟨[], 0, []⟩

/-- The compiled table a pair contributes: `none` when the pair is incomplete
or either file fails to load. -/
def successTable (load : String → Except String Table) (bp : String × PairPaths) :
    Option Table :=
  match bp.2.detail, bp.2.sup with
  | some dp, some sp =>
    match load dp, load sp with
    | Except.ok dfDetail, Except.ok dfSup => some (compiledPairDf dfDetail dfSup)
    | _, _ => none
  | _, _ => none

/-- Whether a pair is complete (both roles present). -/
def isCompletePair (bp : String × PairPaths) : Bool :=
  bp.2.detail.isSome && bp.2.sup.isSome

/-- Base name a failed complete pair contributes to the warnings. -/
def warnedBase (load : String → Except String Table) (bp : String × PairPaths) :
    Option String :=
  if isCompletePair bp && (successTable load bp).isNone then some bp.1 else none

/-- `os.path.basename`: the suffix after the last path separator. -/
def basename (p : String) : String :=
  String.mk ((p.data.reverse.takeWhile (fun c => c ≠ '/')).reverse)

/-- Relative path of a folder's master inside the clean output root:
`<folder_name>/<folder_name>_compiled_file.csv`. -/
def outputRelPath (folderName : String) : String :=
  folderName ++ "/" ++ folderName ++ "_compiled_file.csv"

/-- One summary row: folder name, pairs found, master row count. -/
structure SummaryRow where
  folder : String
  pairsFound : Nat
  masterRows : Nat
deriving DecidableEq, Repr

/-- Process one folder: Step A, Step B, the master write (if any) keyed by
the clean-output path derived from the folder's basename, and the summary
row appended for the folder. -/
def processFolder (load : String → Except String Table) (k : SortKernel)
    (folder : String × List (String × PairPaths)) :
    Option (String × Table) × SummaryRow :=
  match finalMaster k (compileFolderPairs load folder.2).compiled with
  | some m =>
    (some (outputRelPath (basename folder.1), m),
     ⟨basename folder.1, (compileFolderPairs load folder.2).pairsFound, m.rows.length⟩)
  | none =>
    (none, ⟨basename folder.1, (compileFolderPairs load folder.2).pairsFound, 0⟩)

/-- Phase 2 over the scanned folder map: the sequence of master writes and
the summary rows, one per scanned folder, in processing order. -/
def runAll (load : String → Except String Table) (k : SortKernel)
    (fm : List (String × List (String × PairPaths))) :
    List (String × Table) × List SummaryRow :=
  ((fm.map (processFolder load k)).filterMap (fun pr => pr.1),
   (fm.map (processFolder load k)).map (fun pr => pr.2))

/-- Write one file into the clean output tree: an existing file at the same
path is overwritten, otherwise the file is appended. -/
def upsertStore (st : List (String × Table)) (w : String × Table) :
    List (String × Table) :=
  if st.any (fun e => e.1 = w.1) then
    st.map (fun e => if e.1 = w.1 then w else e)
  else st ++ [w]

/-- Apply all master writes in order to an initially empty output tree. -/
def writeAll (ws : List (String × Table)) : List (String × Table) :=
  ws.foldl upsertStore []

/-- Look a path up in the output tree. -/
def lookupStore (st : List (String × Table)) (p : String) : Option Table :=
  (st.find? (fun e => e.1 = p)).map (fun e => e.2)

/-- A file-system entry of the extracted archive (contents are irrelevant to
scanning; loading is the separate abstract `load`). -/
inductive FSEntry where
  | file : String → FSEntry
  | dir : String → List FSEntry → FSEntry

/-- Names of the plain files among entries. -/
def filesOf (entries : List FSEntry) : List String :=
  entries.filterMap (fun e =>
    match e with
    | FSEntry.file n => some n
    | FSEntry.dir _ _ => none)

mutual
/-- `os.walk` (top-down): the directory itself, then its subtrees in order. -/
def walkDir (path : String) (entries : List FSEntry) : List (String × List String) :=
  (path, filesOf entries) :: walkSubdirs path entries

/-- Walk the sub-directories among `entries` in order. -/
def walkSubdirs (path : String) : List FSEntry → List (String × List String)
  | [] => []
  | FSEntry.file _ :: rest => walkSubdirs path rest
  | FSEntry.dir n es :: rest => walkDir (path ++ "/" ++ n) es ++ walkSubdirs path rest
end

/-- Record a detail file for a base key. -/
def setDetail (p : String) (pp : PairPaths) : PairPaths :=
  { pp with detail := some p }

/-- Record a sup file for a base key. -/
def setSup (p : String) (pp : PairPaths) : PairPaths :=
  { pp with sup := some p }

/-- Update the record of one base key inside a folder's map, inserting the
key at the end when new (python dict insertion order). -/
def upsertBase (m : List (String × PairPaths)) (base : String)
    (upd : PairPaths → PairPaths) : List (String × PairPaths) :=
  match m with
  | [] => [(base, upd {})]
  | (b, pp) :: rest =>
    if b = base then (b, upd pp) :: rest else (b, pp) :: upsertBase rest base upd

/-- Update one folder's map inside the global file map, inserting the folder
at the end when new (python defaultdict insertion order). -/
def upsertDir (fm : List (String × List (String × PairPaths))) (root base : String)
    (upd : PairPaths → PairPaths) : List (String × List (String × PairPaths)) :=
  match fm with
  | [] => [(root, upsertBase [] base upd)]
  | (r, m) :: rest =>
    if r = root then (r, upsertBase m base upd) :: rest
    else (r, m) :: upsertDir rest root base upd

/-- Phase 1 classification of one file name: detail files are recognised
first, then sup files; everything else is ignored silently.  Base keys are
derived with `str.replace` exactly as in the script. -/
def addFile (fm : List (String × List (String × PairPaths))) (root fname : String) :
    List (String × List (String × PairPaths)) :=
  if fname.endsWith "_e_detail.csv" then
    upsertDir fm root (fname.replace "_e_detail.csv" "") (setDetail (root ++ "/" ++ fname))
  else if fname.endsWith "_e_sup.csv" then
    upsertDir fm root (fname.replace "_e_sup.csv" "") (setSup (root ++ "/" ++ fname))
  else fm

/-- Build the folder → base → roles map from a walk. -/
def buildFileMap (walked : List (String × List String)) :
    List (String × List (String × PairPaths)) :=
  walked.foldl (fun fm rf => rf.2.foldl (fun fm f => addFile fm rf.1 f) fm) []

/-- Line 39 of the script: when the extraction root holds exactly one entry
and it is a directory, descend into it; otherwise use the root directly. -/
def effectiveEntries : List FSEntry → List FSEntry
  | [FSEntry.dir _ es] => es
  | es => es

/-- Whether the extraction root is a single wrapping directory. -/
def isSingletonDir : List FSEntry → Bool
  | [FSEntry.dir _ _] => true
  | _ => false

/-- Phase 1 on an extracted archive: pick the effective root, then walk it
(paths recorded relative to the effective root). -/
def scanArchive (entries : List FSEntry) :
    List (String × List (String × PairPaths)) :=
  buildFileMap (walkDir "" (effectiveEntries entries))

/-- Number of complete pairs in one folder map. -/
def completeCount (pairs : List (String × PairPaths)) : Nat :=
  (pairs.filter isCompletePair).length

/- ------------------------------------------------------------------ -/
/- Faithful port of numpy's argsort with kind='quicksort'
   (npysort/quicksort.c.src `aquicksort_` with SMALL_QUICKSORT = 15 and
   depth-limited fallback to npysort/heapsort.c.src `aheapsort_`), the
   kernel `df.sort_values` dispatches to by default.  The recursion is
   driven by a fuel parameter large enough for every input.            -/
/- ------------------------------------------------------------------ -/

/-- Key of the index stored at position `i` of the index array. -/
def vAt (v : List Int) (t : List Nat) (i : Nat) : Int :=
  v.getD (t.getD i 0) 0

/-- Swap two positions of the index array. -/
def swapIdx (t : List Nat) (a b : Nat) : List Nat :=
  let x := t.getD a 0
  let y := t.getD b 0
  (t.set a y).set b x

/-- `do ++pi; while (v[*pi] < vp)` starting from the already incremented
position. -/
def scanUp (v : List Int) (vp : Int) (t : List Nat) : Nat → Nat → Nat
  | 0, i => i
  | fuel + 1, i => if vAt v t i < vp then scanUp v vp t fuel (i + 1) else i

/-- `do --pj; while (vp < v[*pj])` starting from the already decremented
position. -/
def scanDown (v : List Int) (vp : Int) (t : List Nat) : Nat → Nat → Nat
  | 0, j => j
  | fuel + 1, j => if vp < vAt v t j then scanDown v vp t fuel (j - 1) else j

/-- The Hoare partition exchange loop; returns the final `pi` and array. -/
def partLoop (v : List Int) (vp : Int) : Nat → Nat → Nat → List Nat → Nat × List Nat
  | 0, pi, _, t => (pi, t)
  | fuel + 1, pi, pj, t =>
    let pi1 := scanUp v vp t (t.length + 2) (pi + 1)
    let pj1 := scanDown v vp t (t.length + 2) (pj - 1)
    if pj1 ≤ pi1 then (pi1, t)
    else partLoop v vp fuel pi1 pj1 (swapIdx t pi1 pj1)

/-- Shift-and-insert step of the insertion sort (`while pj > pl && vp < v[*pk]`). -/
def insertShift (v : List Int) (vi : Nat) (pl : Nat) : Nat → List Nat → List Nat
  | 0, t => t.set 0 vi
  | pj + 1, t =>
    if pl < pj + 1 && decide (v.getD vi 0 < v.getD (t.getD pj 0) 0) then
      insertShift v vi pl pj (t.set (pj + 1) (t.getD pj 0))
    else t.set (pj + 1) vi

/-- Insertion sort main loop over `count` positions starting at `pi`. -/
def insRec (v : List Int) (pl : Nat) : Nat → Nat → List Nat → List Nat
  | 0, _, t => t
  | count + 1, pi, t => insRec v pl count (pi + 1) (insertShift v (t.getD pi 0) pl pi t)

/-- Insertion sort of the segment `[pl, pr]` of the index array. -/
def insertionSeg (v : List Int) (t : List Nat) (pl pr : Nat) : List Nat :=
  insRec v pl (pr + 1 - (pl + 1)) (pl + 1) t

/-- 1-based read into the heap segment starting at `pl`. -/
def hGet (t : List Nat) (pl i : Nat) : Nat :=
  t.getD (pl + i - 1) 0

/-- 1-based write into the heap segment starting at `pl`. -/
def hSet (t : List Nat) (pl i x : Nat) : List Nat :=
  t.set (pl + i - 1) x

/-- The sift-down loop shared by both phases of `aheapsort_`. -/
def siftDown (v : List Int) (pl n tmp : Nat) : Nat → Nat → Nat → List Nat → List Nat
  | 0, i, _, t => hSet t pl i tmp
  | fuel + 1, i, j, t =>
    if j ≤ n then
      let j1 := if j < n && decide (v.getD (hGet t pl j) 0 < v.getD (hGet t pl (j + 1)) 0)
        then j + 1 else j
      if v.getD tmp 0 < v.getD (hGet t pl j1) 0 then
        siftDown v pl n tmp fuel j1 (2 * j1) (hSet t pl i (hGet t pl j1))
      else hSet t pl i tmp
    else hSet t pl i tmp

/-- Heapify phase of `aheapsort_` (`l` counts down to 1). -/
def heapPhase1 (v : List Int) (pl n : Nat) : Nat → List Nat → List Nat
  | 0, t => t
  | l + 1, t =>
    heapPhase1 v pl n l (siftDown v pl n (hGet t pl (l + 1)) (n + 2) (l + 1) (2 * (l + 1)) t)

/-- Extraction phase of `aheapsort_` (`nn` counts down to 2). -/
def heapPhase2 (v : List Int) (pl : Nat) : Nat → List Nat → List Nat
  | 0, t => t
  | 1, t => t
  | nn + 2, t =>
    let tmp := hGet t pl (nn + 2)
    let t1 := hSet t pl (nn + 2) (hGet t pl 1)
    heapPhase2 v pl (nn + 1) (siftDown v pl (nn + 1) tmp (nn + 3) 1 2 t1)

/-- `aheapsort_` on the segment of length `n` starting at `pl`. -/
def aheapsortSeg (v : List Int) (t : List Nat) (pl n : Nat) : List Nat :=
  heapPhase2 v pl n (heapPhase1 v pl n (n / 2) t)

/-- Outer driver of `aquicksort_`: introsort with an explicit segment stack,
partitioning while the segment is longer than SMALL_QUICKSORT (15), falling
back to heapsort when the depth budget is exhausted, finishing small
segments with insertion sort. -/
def aqsOuter (v : List Int) : Nat → List Nat → Nat → Nat → Int →
    List (Nat × Nat × Int) → List Nat
  | 0, t, _, _, _, _ => t
  | fuel + 1, t, pl, pr, cdepth, stack =>
    if 15 < pr - pl then
      if cdepth < 0 then
        let t1 := aheapsortSeg v t pl (pr - pl + 1)
        match stack with
        | [] => t1
        | (pl1, pr1, cd1) :: rest => aqsOuter v fuel t1 pl1 pr1 cd1 rest
      else
        let pm := pl + (pr - pl) / 2
        let t1 := if vAt v t pm < vAt v t pl then swapIdx t pm pl else t
        let t2 := if vAt v t1 pr < vAt v t1 pm then swapIdx t1 pr pm else t1
        let t3 := if vAt v t2 pm < vAt v t2 pl then swapIdx t2 pm pl else t2
        let vp := vAt v t3 pm
        let t4 := swapIdx t3 pm (pr - 1)
        let pit := partLoop v vp (t4.length + 2) pl (pr - 1) t4
        let t5 := swapIdx pit.2 pit.1 (pr - 1)
        let pi := pit.1
        if pi - pl < pr - pi then
          aqsOuter v fuel t5 pl (pi - 1) (cdepth - 1) ((pi + 1, pr, cdepth - 1) :: stack)
        else
          aqsOuter v fuel t5 (pi + 1) pr (cdepth - 1) ((pl, pi - 1, cdepth - 1) :: stack)
    else
      let t1 := insertionSeg v t pl pr
      match stack with
      | [] => t1
      | (pl1, pr1, cd1) :: rest => aqsOuter v fuel t1 pl1 pr1 cd1 rest

/-- numpy `np.argsort(v, kind='quicksort')`, the kernel used by
`df.sort_values` by default. -/
def npAquicksort (v : List Int) : List Nat :=
  let n := v.length
  aqsOuter v (n * n + 64) (List.range n) 0 (n - 1) (2 * (Nat.log2 n : Int)) []

/- ------------------------------------------------------------------ -/
/- Concrete fixtures used by counterexamples and witnesses.           -/
/- ------------------------------------------------------------------ -/

/-- A compiled-pair table of 17 rows whose PART_NO values are all the same
numeric literal and whose second column distinguishes the rows; long enough
(> 16) that numpy's quicksort leaves its insertion-sort regime. -/
def mex17 : Table :=
  ⟨["PART_NO", "R"], (List.range 17).map (fun i => [Cell.str "1", Cell.str (toString i)])⟩

/-- A small detail table. -/
def tDetail : Table :=
  ⟨["PART_NO", "A"], [[Cell.str "3", Cell.str "x"], [Cell.str "1", Cell.str "y"]]⟩

/-- A small supplement table with an unparseable PART_NO value. -/
def tSup : Table :=
  ⟨["PART_NO", "B"],
   [[Cell.str "2", Cell.str "u"], [Cell.str "abc", Cell.str "v"], [Cell.str "4", Cell.str "w"]]⟩

/-- A loader for the fixtures: two well-formed files and one that fails to
parse. -/
def wLoad : String → Except String Table := fun p =>
  if p = "d1" then Except.ok tDetail
  else if p = "s1" then Except.ok tSup
  else Except.error "parse error"

/-- A folder map with a good pair, a pair whose detail file fails to load,
and an incomplete group. -/
def wPairs : List (String × PairPaths) :=
  [("X", ⟨some "d1", some "s1"⟩), ("Y", ⟨some "bad", some "s1"⟩), ("Z", ⟨some "d1", none⟩)]

/-- A scanned map: one folder with pairs, one folder with only an incomplete
group. -/
def wFm : List (String × List (String × PairPaths)) :=
  [("/root/A", wPairs), ("/root/B", [("Q", ⟨some "d1", none⟩)])]

/-- Two distinct folders sharing the basename `X`, each with one complete
pair. -/
def cFm : List (String × List (String × PairPaths)) :=
  [("/a/X", [("p", ⟨some "d1", some "s1"⟩)]), ("/b/X", [("q", ⟨some "d1", some "s1"⟩)])]

/-- A master table with distinct parseable keys and one unparseable key. -/
def mDistinct : Table :=
  ⟨["PART_NO"], [[Cell.str "2"], [Cell.str "1"], [Cell.str "abc"]]⟩

/- ------------------------------------------------------------------ -/
/- Generic list lemmas.                                               -/
/- ------------------------------------------------------------------ -/

theorem filterMap_get_range (l : List α) :
    (List.range l.length).filterMap (fun j => l[j]?) = l := by
  induction l with
  | nil => rfl
  | cons a t ih =>
    have h2 : ((fun j => (a :: t)[j]?) ∘ Nat.succ) = fun j => t[j]? := by
      funext n
      simp
    simp only [List.length_cons, List.range_succ_eq_map, List.filterMap_cons,
      List.getElem?_cons_zero, List.filterMap_map, h2, ih]

theorem filterMap_get_eq_map_getD (l : List α) (d : α) (out : List Nat)
    (h : ∀ j ∈ out, j < l.length) :
    out.filterMap (fun j => l[j]?) = out.map (fun j => l.getD j d) := by
  induction out with
  | nil => rfl
  | cons j t ih =>
    have hj : j < l.length := h j (List.mem_cons_self j t)
    have ht : ∀ x ∈ t, x < l.length := fun x hx => h x (List.mem_cons_of_mem j hx)
    have hsome : l[j]? = some (l.getD j d) := by
      rw [List.getElem?_eq_getElem hj, List.getD_eq_getElem?_getD,
        List.getElem?_eq_getElem hj]
      rfl
    simp only [List.filterMap_cons, hsome, List.map_cons, ih ht]

theorem length_filterMap_of_isSome (l : List α) (f : α → Option β)
    (h : ∀ a ∈ l, (f a).isSome) : (l.filterMap f).length = l.length := by
  induction l with
  | nil => rfl
  | cons a t ih =>
    have ha := h a (List.mem_cons_self a t)
    cases hfa : f a with
    | none => rw [hfa] at ha; simp at ha
    | some b =>
      simp [List.filterMap_cons, hfa,
        ih (fun x hx => h x (List.mem_cons_of_mem a hx))]

theorem filterMap_eq_map_of_isSome (l : List α) (f : α → Option β) (d : β)
    (h : ∀ a ∈ l, (f a).isSome) :
    l.filterMap f = l.map (fun a => (f a).getD d) := by
  induction l with
  | nil => rfl
  | cons a t ih =>
    have ha := h a (List.mem_cons_self a t)
    cases hfa : f a with
    | none => rw [hfa] at ha; simp at ha
    | some b =>
      simp [List.filterMap_cons, hfa,
        ih (fun x hx => h x (List.mem_cons_of_mem a hx))]

theorem map_getD_range (l : List α) (d : α) :
    (List.range l.length).map (fun j => l.getD j d) = l := by
  induction l with
  | nil => rfl
  | cons a t ih =>
    have h2 : ((fun j => (a :: t).getD j d) ∘ Nat.succ) = fun j => t.getD j d := by
      funext n
      rfl
    simp only [List.length_cons, List.range_succ_eq_map, List.map_cons, List.map_map,
      List.getD_cons_zero, h2, ih]

/- ------------------------------------------------------------------ -/
/- Facts about the tagged-row decomposition of the sort.              -/
/- ------------------------------------------------------------------ -/

theorem taggedRows_fst (t : Table) : ∀ p ∈ taggedRows t, p.1 = rowKey t.cols p.2 := by
  intro p hp
  rcases List.mem_map.1 hp with ⟨r, _, rfl⟩
  rfl

theorem taggedRows_map_snd (t : Table) : (taggedRows t).map (fun p => p.2) = t.rows := by
  simp [taggedRows, List.map_map, Function.comp_def]

theorem nonNanTagged_subset (t : Table) : nonNanTagged t ⊆ taggedRows t :=
  fun _ hx => List.mem_of_mem_filter hx

theorem nanTagged_subset (t : Table) : nanTagged t ⊆ taggedRows t :=
  fun _ hx => List.mem_of_mem_filter hx

theorem nonNanTagged_isSome (t : Table) : ∀ p ∈ nonNanTagged t, p.1.isSome := by
  intro p hp
  unfold nonNanTagged at hp
  exact (List.mem_filter.1 hp).2

theorem nanTagged_eq_none (t : Table) : ∀ p ∈ nanTagged t, p.1 = none := by
  intro p hp
  unfold nanTagged at hp
  have h := (List.mem_filter.1 hp).2
  simp only [Bool.not_eq_true'] at h
  exact Option.not_isSome_iff_eq_none.1 (by simp [h])

theorem kernelKeys_length (t : Table) :
    (kernelKeys t).length = (nonNanTagged t).length :=
  length_filterMap_of_isSome _ _ (nonNanTagged_isSome t)

theorem kernelKeys_eq_map (t : Table) :
    kernelKeys t = (nonNanTagged t).map (fun p => p.1.getD 0) :=
  filterMap_eq_map_of_isSome _ _ _ (nonNanTagged_isSome t)

theorem nanTagged_map_snd (t : Table) :
    (nanTagged t).map (fun p => p.2)
      = t.rows.filter (fun r => !(rowKey t.cols r).isSome) := by
  unfold nanTagged taggedRows
  rw [List.filter_map, List.map_map]
  simp [Function.comp_def]

theorem sortValues_cols (k : SortKernel) (t : Table) :
    (sortValuesPartNo k t).cols = t.cols := rfl

theorem coerce_cols (t : Table) : (coercePartNo t).cols = t.cols := by
  unfold coercePartNo
  split <;> rfl

theorem coerce_rows_length (t : Table) :
    (coercePartNo t).rows.length = t.rows.length := by
  unfold coercePartNo
  split <;> simp

theorem blockA_mem (k : SortKernel) (t : Table) :
    ∀ p ∈ (k (kernelKeys t)).filterMap (fun j => (nonNanTagged t)[j]?),
      p ∈ nonNanTagged t := by
  intro p hp
  rcases List.mem_filterMap.1 hp with ⟨j, _, hj⟩
  exact List.getElem?_mem hj

theorem sortValues_perm (k : SortKernel) (t : Table)
    (hk : IsArgsortOf (k (kernelKeys t)) (kernelKeys t)) :
    (sortValuesPartNo k t).rows.Perm t.rows := by
  have hperm : (k (kernelKeys t)).Perm (List.range (nonNanTagged t).length) := by
    have := hk.1
    rwa [kernelKeys_length] at this
  have hblock : ((k (kernelKeys t)).filterMap (fun j => (nonNanTagged t)[j]?)).Perm
      (nonNanTagged t) := by
    have h1 := hperm.filterMap (fun j => (nonNanTagged t)[j]?)
    rwa [filterMap_get_range] at h1
  have hsplit : ((nonNanTagged t) ++ (nanTagged t)).Perm (taggedRows t) := by
    have := List.filter_append_perm (fun p : Option Int × List Cell => p.1.isSome)
      (taggedRows t)
    exact this
  show List.Perm (((k (kernelKeys t)).filterMap (fun j => (nonNanTagged t)[j]?)).map
      (fun p => p.2) ++ (nanTagged t).map (fun p => p.2)) t.rows
  refine ((hblock.map (fun p => p.2)).append_right _).trans ?_
  rw [← List.map_append, ← taggedRows_map_snd t]
  exact hsplit.map _

theorem sortValues_length (k : SortKernel) (t : Table)
    (hk : IsArgsortOf (k (kernelKeys t)) (kernelKeys t)) :
    (sortValuesPartNo k t).rows.length = t.rows.length :=
  (sortValues_perm k t hk).length_eq

theorem blockA_keys (k : SortKernel) (t : Table)
    (hb : ∀ j ∈ k (kernelKeys t), j < (nonNanTagged t).length) :
    (((k (kernelKeys t)).filterMap (fun j => (nonNanTagged t)[j]?)).map
        (fun p => p.2)).map (rowKey t.cols)
      = (k (kernelKeys t)).map (fun j => some ((kernelKeys t).getD j 0)) := by
  rw [List.map_map]
  simp only [Function.comp_def]
  rw [filterMap_get_eq_map_getD (nonNanTagged t) (none, ([] : List Cell)) _ hb,
    List.map_map]
  apply List.map_congr_left
  intro j hj
  have hjl : j < (nonNanTagged t).length := hb j hj
  have hg : (nonNanTagged t).getD j (none, ([] : List Cell)) = (nonNanTagged t)[j] := by
    rw [List.getD_eq_getElem?_getD, List.getElem?_eq_getElem hjl]
    rfl
  have hmem : (nonNanTagged t)[j] ∈ nonNanTagged t := List.getElem_mem hjl
  have htag : ((nonNanTagged t)[j]).1 = rowKey t.cols ((nonNanTagged t)[j]).2 :=
    taggedRows_fst t _ (nonNanTagged_subset t hmem)
  have hsome := nonNanTagged_isSome t _ hmem
  have hks : (kernelKeys t).getD j 0 = (((nonNanTagged t)[j]).1).getD 0 := by
    rw [kernelKeys_eq_map, List.getD_eq_getElem?_getD]
    have hlen : j < ((nonNanTagged t).map (fun p => p.1.getD 0)).length := by
      simpa using hjl
    rw [List.getElem?_eq_getElem hlen, List.getElem_map]
    rfl
  simp only [Function.comp_def, hg]
  rw [← htag, hks]
  cases ho : ((nonNanTagged t)[j]).1 with
  | none => rw [ho] at hsome; simp at hsome
  | some v => rfl

theorem sortValues_keys_pairwise (k : SortKernel) (t : Table)
    (hk : IsArgsortOf (k (kernelKeys t)) (kernelKeys t)) :
    (keyListOf (sortValuesPartNo k t)).Pairwise (fun a b => keyLeB a b = true) := by
  have hb : ∀ j ∈ k (kernelKeys t), j < (nonNanTagged t).length := by
    intro j hj
    have h1 := hk.1.mem_iff.1 hj
    rw [List.mem_range] at h1
    rwa [kernelKeys_length] at h1
  have hkeys : keyListOf (sortValuesPartNo k t)
      = ((k (kernelKeys t)).map (fun j => some ((kernelKeys t).getD j 0)))
        ++ ((nanTagged t).map (fun p => p.2)).map (rowKey t.cols) := by
    show ((((k (kernelKeys t)).filterMap (fun j => (nonNanTagged t)[j]?)).map
        (fun p => p.2)) ++ (nanTagged t).map (fun p => p.2)).map (rowKey t.cols) = _
    rw [List.map_append, blockA_keys k t hb]
  have hnankeys : ∀ x ∈ ((nanTagged t).map (fun p => p.2)).map (rowKey t.cols), x = none := by
    intro x hx
    rcases List.mem_map.1 hx with ⟨r, hr, rfl⟩
    rcases List.mem_map.1 hr with ⟨p, hp, rfl⟩
    rw [← taggedRows_fst t p (nanTagged_subset t hp)]
    exact nanTagged_eq_none t p hp
  rw [hkeys]
  apply List.pairwise_append.2
  refine ⟨?_, ?_, ?_⟩
  · rw [List.pairwise_map]
    have h2 := hk.2
    rw [List.pairwise_map] at h2
    exact h2.imp (fun h => by simpa [keyLeB] using h)
  · apply List.pairwise_of_forall_mem_list
    intro a ha b hb2
    rw [hnankeys a ha, hnankeys b hb2]
    rfl
  · intro a ha b hb2
    rcases List.mem_map.1 ha with ⟨j, _, rfl⟩
    rw [hnankeys b hb2]
    rfl

theorem nan_rows_stable (k : SortKernel) (t : Table) :
    (sortValuesPartNo k t).rows.filter (fun r => !(rowKey t.cols r).isSome)
      = t.rows.filter (fun r => !(rowKey t.cols r).isSome) := by
  show ((((k (kernelKeys t)).filterMap (fun j => (nonNanTagged t)[j]?)).map (fun p => p.2))
      ++ (nanTagged t).map (fun p => p.2)).filter (fun r => !(rowKey t.cols r).isSome)
    = t.rows.filter (fun r => !(rowKey t.cols r).isSome)
  rw [List.filter_append]
  have h1 : (((k (kernelKeys t)).filterMap (fun j => (nonNanTagged t)[j]?)).map
      (fun p => p.2)).filter (fun r => !(rowKey t.cols r).isSome) = [] := by
    rw [List.filter_eq_nil_iff]
    intro r hr
    rcases List.mem_map.1 hr with ⟨p, hp, rfl⟩
    have hmem := blockA_mem k t p hp
    have hs := nonNanTagged_isSome t p hmem
    have htag := taggedRows_fst t p (nonNanTagged_subset t hmem)
    simp [← htag, hs]
  have h2 : ((nanTagged t).map (fun p => p.2)).filter (fun r => !(rowKey t.cols r).isSome)
      = (nanTagged t).map (fun p => p.2) := by
    rw [List.filter_eq_self]
    intro r hr
    rcases List.mem_map.1 hr with ⟨p, hp, rfl⟩
    rw [← taggedRows_fst t p (nanTagged_subset t hp), nanTagged_eq_none t p hp]
    rfl
  rw [h1, h2, nanTagged_map_snd]
  rfl

/- ------------------------------------------------------------------ -/
/- Coercion lemmas.                                                   -/
/- ------------------------------------------------------------------ -/

theorem set_getD_self (l : List α) (i : Nat) (d : α) :
    l.set i (l.getD i d) = l := by
  induction l generalizing i with
  | nil => rfl
  | cons a t ih =>
    cases i with
    | zero => rfl
    | succ n => simp only [List.set_cons_succ, List.getD_cons_succ, ih]

theorem getD_set_self (l : List α) (i : Nat) (x d : α) (h : i < l.length) :
    (l.set i x).getD i d = x := by
  rw [List.getD_eq_getElem?_getD, List.getElem?_set_self h]
  rfl

theorem getD_set_oob (l : List α) (i : Nat) (x d : α) (h : l.length ≤ i) :
    (l.set i x).getD i d = d := by
  rw [List.set_eq_of_length_le h, List.getD_eq_getElem?_getD]
  rw [List.getElem?_eq_none h]
  rfl

theorem getD_set_ne (l : List α) (i j : Nat) (x d : α) (h : i ≠ j) :
    (l.set i x).getD j d = l.getD j d := by
  rw [List.getD_eq_getElem?_getD, List.getElem?_set_ne h, ← List.getD_eq_getElem?_getD]

theorem toNumericCell_idem (c : Cell) :
    toNumericCell (toNumericCell c) = toNumericCell c := by
  cases c with
  | num n => rfl
  | na => rfl
  | str s =>
    cases h : parseIntStr s with
    | none => simp [toNumericCell, h]
    | some n => simp [toNumericCell, h]

theorem coerceApply (r : List Cell) (i : Nat) :
    (r.set i (toNumericCell (r.getD i Cell.na))).getD i Cell.na
      = toNumericCell (r.getD i Cell.na) := by
  by_cases h : i < r.length
  · exact getD_set_self r i _ Cell.na h
  · push_neg at h
    rw [getD_set_oob r i _ Cell.na h]
    rw [List.getD_eq_getElem?_getD, List.getElem?_eq_none h]
    rfl

theorem coerce_row_idem (r : List Cell) (i : Nat) :
    ((r.set i (toNumericCell (r.getD i Cell.na))).set i
        (toNumericCell ((r.set i (toNumericCell (r.getD i Cell.na))).getD i Cell.na)))
      = r.set i (toNumericCell (r.getD i Cell.na)) := by
  rw [coerceApply, toNumericCell_idem, List.set_set]

theorem colIdx_lt (cols : List String) (c : String) (i : Nat)
    (h : colIdx cols c = some i) : i < cols.length := by
  induction cols generalizing i with
  | nil => simp [colIdx] at h
  | cons c0 rest ih =>
    unfold colIdx at h
    simp only [List.length_cons]
    by_cases h0 : c0 = c
    · simp [h0] at h
      omega
    · simp only [h0, if_false] at h
      cases hr : colIdx rest c with
      | none => rw [hr] at h; simp at h
      | some j =>
        rw [hr] at h
        simp only [Option.map_some'] at h
        injection h with h2
        have := ih j hr
        omega

theorem colIdx_getD (cols : List String) (c : String) (i : Nat)
    (h : colIdx cols c = some i) : cols.getD i "" = c := by
  induction cols generalizing i with
  | nil => simp [colIdx] at h
  | cons c0 rest ih =>
    unfold colIdx at h
    by_cases h0 : c0 = c
    · simp [h0] at h
      subst h
      simpa using h0
    · simp only [h0, if_false] at h
      cases hr : colIdx rest c with
      | none => rw [hr] at h; simp at h
      | some j =>
        rw [hr] at h
        simp only [Option.map_some'] at h
        injection h with h2
        subst h2
        simpa using ih j hr

theorem colIdx_none_of_not_mem (cols : List String) (c : String)
    (h : c ∉ cols) : colIdx cols c = none := by
  induction cols with
  | nil => rfl
  | cons c0 rest ih =>
    unfold colIdx
    have h0 : ¬(c0 = c) := fun he => h (he ▸ List.mem_cons_self c0 rest)
    have hr : c ∉ rest := fun he => h (List.mem_cons_of_mem c0 he)
    simp [h0, ih hr]

theorem colIdx_isSome_of_mem (cols : List String) (c : String)
    (h : c ∈ cols) : (colIdx cols c).isSome := by
  induction cols with
  | nil => simp at h
  | cons c0 rest ih =>
    unfold colIdx
    by_cases h0 : c0 = c
    · simp [h0]
    · have hr : c ∈ rest := by
        cases List.mem_cons.1 h with
        | inl he => exact absurd he.symm h0
        | inr he => exact he
      cases hx : colIdx rest c with
      | none => rw [hx] at ih; simp at ih; exact absurd hr ih
      | some j => simp [h0, hx]

theorem coerce_rows (t : Table) (i : Nat) (h : colIdx t.cols "PART_NO" = some i) :
    (coercePartNo t).rows
      = t.rows.map (fun r => r.set i (toNumericCell (r.getD i Cell.na))) := by
  unfold coercePartNo
  rw [h]

theorem coerce_rowKey (cols : List String) (r : List Cell) (i : Nat)
    (h : colIdx cols "PART_NO" = some i) :
    rowKey cols (r.set i (toNumericCell (r.getD i Cell.na)))
      = cellKey (toNumericCell (r.getD i Cell.na)) := by
  unfold rowKey getCell
  rw [h]
  show cellKey ((r.set i (toNumericCell (r.getD i Cell.na))).getD i Cell.na)
    = cellKey (toNumericCell (r.getD i Cell.na))
  rw [coerceApply]

theorem sorted_row_mem (k : SortKernel) (u : Table) :
    ∀ r ∈ (sortValuesPartNo k u).rows, r ∈ u.rows := by
  intro r hr
  have hr2 : r ∈ ((k (kernelKeys u)).filterMap (fun j => (nonNanTagged u)[j]?)).map
      (fun p => p.2) ++ (nanTagged u).map (fun p => p.2) := hr
  cases List.mem_append.1 hr2 with
  | inl h1 =>
    rcases List.mem_map.1 h1 with ⟨p, hp, rfl⟩
    have := nonNanTagged_subset u (blockA_mem k u p hp)
    rcases List.mem_map.1 this with ⟨r0, hr0, he⟩
    have : p.2 = r0 := by rw [← he]
    rw [this]
    exact hr0
  | inr h2 =>
    rcases List.mem_map.1 h2 with ⟨p, hp, rfl⟩
    have := nanTagged_subset u hp
    rcases List.mem_map.1 this with ⟨r0, hr0, he⟩
    have : p.2 = r0 := by rw [← he]
    rw [this]
    exact hr0

theorem coerce_eq_self_of (t : Table) (i : Nat) (h : colIdx t.cols "PART_NO" = some i)
    (hr : ∀ r ∈ t.rows, r.set i (toNumericCell (r.getD i Cell.na)) = r) :
    coercePartNo t = t := by
  unfold coercePartNo
  rw [h]
  cases t with
  | mk cols rows =>
    simp only [Table.mk.injEq, true_and]
    calc rows.map (fun r => r.set i (toNumericCell (r.getD i Cell.na)))
        = rows.map id := List.map_congr_left hr
      _ = rows := List.map_id rows

theorem coerce_sortValues_coerce (k : SortKernel) (m : Table) (i : Nat)
    (h : colIdx m.cols "PART_NO" = some i) :
    coercePartNo (sortValuesPartNo k (coercePartNo m))
      = sortValuesPartNo k (coercePartNo m) := by
  have hcols : (sortValuesPartNo k (coercePartNo m)).cols = m.cols := coerce_cols m
  apply coerce_eq_self_of _ i (by rw [hcols]; exact h)
  intro r hr
  have hr2 : r ∈ (coercePartNo m).rows := sorted_row_mem k (coercePartNo m) r hr
  rw [coerce_rows m i h] at hr2
  rcases List.mem_map.1 hr2 with ⟨r0, _, rfl⟩
  exact coerce_row_idem r0 i

theorem blockA_rows_isSome (k : SortKernel) (u : Table) :
    ∀ r ∈ ((k (kernelKeys u)).filterMap (fun j => (nonNanTagged u)[j]?)).map
        (fun p => p.2), (rowKey u.cols r).isSome := by
  intro r hr
  rcases List.mem_map.1 hr with ⟨p, hp, rfl⟩
  have hm := blockA_mem k u p hp
  rw [← taggedRows_fst u p (nonNanTagged_subset u hm)]
  exact nonNanTagged_isSome u p hm

theorem kernel_bound (k : SortKernel) (u : Table)
    (h1 : IsArgsortOf (k (kernelKeys u)) (kernelKeys u)) :
    ∀ j ∈ k (kernelKeys u), j < (nonNanTagged u).length := by
  intro j hj
  have hm := h1.1.mem_iff.1 hj
  rw [List.mem_range] at hm
  rwa [kernelKeys_length] at hm

theorem pairwise_strict_of_nodup (u : Table) (L : List (List Cell))
    (hsome : ∀ r ∈ L, (rowKey u.cols r).isSome)
    (hle : L.Pairwise (fun r1 r2 => keyLeB (rowKey u.cols r1) (rowKey u.cols r2) = true))
    (hnd : (L.map (rowKey u.cols)).Nodup) :
    L.Pairwise (fun r1 r2 => keyLtB (rowKey u.cols r1) (rowKey u.cols r2) = true) := by
  have hne : L.Pairwise (fun r1 r2 => rowKey u.cols r1 ≠ rowKey u.cols r2) :=
    (List.pairwise_map).1 hnd
  refine List.Pairwise.imp_of_mem ?_ (hle.and hne)
  intro a b ha hb hab
  obtain ⟨x, hx⟩ := Option.isSome_iff_exists.1 (hsome a ha)
  obtain ⟨y, hy⟩ := Option.isSome_iff_exists.1 (hsome b hb)
  rw [hx, hy] at hab ⊢
  rcases hab with ⟨h1, h2⟩
  simp [keyLeB] at h1
  simp [keyLtB]
  rcases lt_or_eq_of_le h1 with h | h
  · exact h
  · exact absurd (h ▸ rfl) h2

theorem sortValues_fixed_of_sorted_distinct (k : SortKernel) (u : Table)
    (h1 : IsArgsortOf (k (kernelKeys u)) (kernelKeys u))
    (h2 : IsArgsortOf (k (kernelKeys (sortValuesPartNo k u)))
      (kernelKeys (sortValuesPartNo k u)))
    (h3 : (kernelKeys u).Nodup) :
    sortValuesPartNo k (sortValuesPartNo k u) = sortValuesPartNo k u := by
  have hB : (nanTagged (sortValuesPartNo k u)).map (fun p => p.2)
      = (nanTagged u).map (fun p => p.2) := by
    rw [nanTagged_map_snd, nanTagged_map_snd]
    rw [show (sortValuesPartNo k u).cols = u.cols from rfl]
    exact nan_rows_stable k u
  have hbu := kernel_bound k u h1
  have hAkeys := blockA_keys k u hbu
  have hAsome := blockA_rows_isSome k u
  have hA'some : ∀ r ∈ ((k (kernelKeys (sortValuesPartNo k u))).filterMap
      (fun j => (nonNanTagged (sortValuesPartNo k u))[j]?)).map (fun p => p.2),
      (rowKey u.cols r).isSome :=
    blockA_rows_isSome k (sortValuesPartNo k u)
  -- sortedness of the first block of the once-sorted table
  have hallu : ((((k (kernelKeys u)).filterMap (fun j => (nonNanTagged u)[j]?)).map
      (fun p => p.2) ++ (nanTagged u).map (fun p => p.2)).map
        (rowKey u.cols)).Pairwise (fun a b => keyLeB a b = true) :=
    sortValues_keys_pairwise k u h1
  rw [List.map_append] at hallu
  have hAsorted := (List.pairwise_map).1 (List.pairwise_append.1 hallu).1
  -- sortedness of the first block of the twice-sorted table
  have hallx : ((((k (kernelKeys (sortValuesPartNo k u))).filterMap
      (fun j => (nonNanTagged (sortValuesPartNo k u))[j]?)).map (fun p => p.2)
      ++ (nanTagged (sortValuesPartNo k u)).map (fun p => p.2)).map
        (rowKey u.cols)).Pairwise (fun a b => keyLeB a b = true) :=
    sortValues_keys_pairwise k (sortValuesPartNo k u) h2
  rw [List.map_append] at hallx
  have hA'sorted := (List.pairwise_map).1 (List.pairwise_append.1 hallx).1
  -- nodup keys
  have hlst : (((k (kernelKeys u)).map (fun j => (kernelKeys u).getD j 0))).Nodup := by
    have hp : ((k (kernelKeys u)).map (fun j => (kernelKeys u).getD j 0)).Perm
        (kernelKeys u) := by
      have := h1.1.map (fun j => (kernelKeys u).getD j 0)
      rwa [map_getD_range] at this
    exact (hp.nodup_iff).2 h3
  have hAkeysNodup : ((((k (kernelKeys u)).filterMap
      (fun j => (nonNanTagged u)[j]?)).map (fun p => p.2)).map
        (rowKey u.cols)).Nodup := by
    rw [hAkeys,
      show (fun j => some ((kernelKeys u).getD j 0))
        = some ∘ (fun j => (kernelKeys u).getD j 0) from rfl, ← List.map_map]
    exact hlst.map (Option.some_injective Int)

  -- the two first blocks are permutations of each other
  have hYperm : ((((k (kernelKeys (sortValuesPartNo k u))).filterMap
      (fun j => (nonNanTagged (sortValuesPartNo k u))[j]?)).map (fun p => p.2))
      ++ (nanTagged (sortValuesPartNo k u)).map (fun p => p.2)).Perm
      ((((k (kernelKeys u)).filterMap (fun j => (nonNanTagged u)[j]?)).map
        (fun p => p.2)) ++ (nanTagged u).map (fun p => p.2)) :=
    sortValues_perm k (sortValuesPartNo k u) h2
  rw [hB] at hYperm
  have hAA := (List.perm_append_right_iff _).1 hYperm
  have hA'keysNodup := ((hAA.map (rowKey u.cols)).nodup_iff).2 hAkeysNodup
  have hA'some2 : ∀ r ∈ ((k (kernelKeys (sortValuesPartNo k u))).filterMap
      (fun j => (nonNanTagged (sortValuesPartNo k u))[j]?)).map (fun p => p.2),
      (rowKey u.cols r).isSome := hA'some
  have hAstrict := pairwise_strict_of_nodup u _ hAsome hAsorted hAkeysNodup
  have hA'strict := pairwise_strict_of_nodup u _ hA'some2 hA'sorted hA'keysNodup
  haveI : IsAntisymm (List Cell)
      (fun r1 r2 => keyLtB (rowKey u.cols r1) (rowKey u.cols r2) = true) := by
    constructor
    intro a b hab hba
    cases ha : rowKey u.cols a with
    | none =>
      rw [ha] at hab
      cases hb2 : rowKey u.cols b with
      | none => rw [hb2] at hab; simp [keyLtB] at hab
      | some y => rw [hb2] at hab; simp [keyLtB] at hab
    | some x =>
      cases hb2 : rowKey u.cols b with
      | none => rw [ha, hb2] at hab; simp [keyLtB] at hab
      | some y =>
        rw [ha, hb2] at hab hba
        simp [keyLtB] at hab hba
        exact absurd hba (by omega)
  have hAeq := List.eq_of_perm_of_sorted hAA hA'strict hAstrict
  have e1 : sortValuesPartNo k (sortValuesPartNo k u)
      = Table.mk u.cols ((((k (kernelKeys (sortValuesPartNo k u))).filterMap
        (fun j => (nonNanTagged (sortValuesPartNo k u))[j]?)).map (fun p => p.2))
        ++ (nanTagged (sortValuesPartNo k u)).map (fun p => p.2)) := rfl
  have e2 : sortValuesPartNo k u
      = Table.mk u.cols ((((k (kernelKeys u)).filterMap
        (fun j => (nonNanTagged u)[j]?)).map (fun p => p.2))
        ++ (nanTagged u).map (fun p => p.2)) := rfl
  rw [e1, hAeq, hB, e2]

/- ------------------------------------------------------------------ -/
/- Claims C3, C4, C5.                                                 -/
/- ------------------------------------------------------------------ -/

set_option maxRecDepth 10000 in
/-- C3 counterexample: in `mex17` all 17 rows have the equal numeric
PART_NO key 1, so the claimed stability would force the sorted master to
keep the concatenation order; with the kernel actually used by the code
(numpy argsort, kind='quicksort') the row tagged "14" ends up before the
row tagged "1": positions 1 and 14 swap, refuting the claim at this input. -/
theorem c3_counterexample :
    (coercePartNo mex17).rows.getD 1 [] = [Cell.num 1, Cell.str "1"]
    ∧ (coercePartNo mex17).rows.getD 14 [] = [Cell.num 1, Cell.str "14"]
    ∧ (masterSortStep npAquicksort mex17).rows.getD 1 [] = [Cell.num 1, Cell.str "14"]
    ∧ (masterSortStep npAquicksort mex17).rows.getD 14 [] = [Cell.num 1, Cell.str "1"] := by
  refine ⟨by decide, by decide, by decide, by decide⟩

/-- C3 (amended): the sort is stable on the rows whose PART_NO fails numeric
parsing — they appear in the sorted master in exactly their concatenation
relative order (for every kernel, because pandas appends the NaN-masked rows
unpermuted); among rows with equal parseable keys the default quicksort
kernel gives no order guarantee. -/
theorem c3_nan_rows_stable (k : SortKernel) (m : Table) :
    (masterSortStep k m).rows.filter (fun r => !(rowKey m.cols r).isSome)
      = (coercePartNo m).rows.filter (fun r => !(rowKey m.cols r).isSome) := by
  have h := nan_rows_stable k (coercePartNo m)
  rw [coerce_cols] at h
  exact h

set_option maxRecDepth 10000 in
/-- C4 counterexample: `masterSortStep npAquicksort mex17` is a
DirectoryMaster already sorted by the procedure (all keys equal), yet
applying the procedure again permutes its rows once more. -/
theorem c4_counterexample :
    masterSortStep npAquicksort (masterSortStep npAquicksort mex17)
      ≠ masterSortStep npAquicksort mex17 := by
  decide

/-- C4 (amended): the coercion-then-sort procedure is idempotent whenever
the parseable PART_NO keys are pairwise distinct (any number of unparseable
keys allowed); with duplicate parseable keys the unstable kernel may permute
the equal-keyed rows again. -/
theorem c4_sort_idempotent_of_distinct (k : SortKernel) (m : Table) (i : Nat)
    (hc : colIdx m.cols "PART_NO" = some i)
    (h1 : IsArgsortOf (k (kernelKeys (coercePartNo m))) (kernelKeys (coercePartNo m)))
    (h2 : IsArgsortOf (k (kernelKeys (masterSortStep k m)))
      (kernelKeys (masterSortStep k m)))
    (h3 : (kernelKeys (coercePartNo m)).Nodup) :
    masterSortStep k (masterSortStep k m) = masterSortStep k m := by
  show sortValuesPartNo k (coercePartNo (sortValuesPartNo k (coercePartNo m)))
      = sortValuesPartNo k (coercePartNo m)
  rw [coerce_sortValues_coerce k m i hc]
  exact sortValues_fixed_of_sorted_distinct k (coercePartNo m) h1 h2 h3

/-- Witness for the amended C4 at `mDistinct` (keys 2, 1 and one
unparseable), with the real quicksort kernel. -/
theorem c4_amended_witness :
    colIdx mDistinct.cols "PART_NO" = some 0
    ∧ IsArgsortOf (npAquicksort (kernelKeys (coercePartNo mDistinct)))
        (kernelKeys (coercePartNo mDistinct))
    ∧ IsArgsortOf (npAquicksort (kernelKeys (masterSortStep npAquicksort mDistinct)))
        (kernelKeys (masterSortStep npAquicksort mDistinct))
    ∧ (kernelKeys (coercePartNo mDistinct)).Nodup
    ∧ masterSortStep npAquicksort (masterSortStep npAquicksort mDistinct)
        = masterSortStep npAquicksort mDistinct :=
  ⟨by decide, by decide, by decide, by decide,
    c4_sort_idempotent_of_distinct npAquicksort mDistinct 0 (by decide) (by decide)
      (by decide) (by decide)⟩

/-- C5: in every sorted DirectoryMaster the key sequence is ordered by
`keyLeB`: parseable keys ascend, no unparseable-key row ever precedes a
parseable-key row, and this holds for every kernel satisfying the argsort
contract at the sorted input. -/
theorem c5_sorted_master_keyorder (k : SortKernel) (m : Table)
    (hk : IsArgsortOf (k (kernelKeys (coercePartNo m))) (kernelKeys (coercePartNo m))) :
    (keyListOf (masterSortStep k m)).Pairwise (fun a b => keyLeB a b = true) :=
  sortValues_keys_pairwise k (coercePartNo m) hk

/-- Witness for C5 at the compiled pair of the fixture tables (keys
3, 1, 2, unparseable, 4), with the real quicksort kernel. -/
theorem c5_witness :
    IsArgsortOf (npAquicksort (kernelKeys (coercePartNo (compiledPairDf tDetail tSup))))
        (kernelKeys (coercePartNo (compiledPairDf tDetail tSup)))
    ∧ (keyListOf (masterSortStep npAquicksort (compiledPairDf tDetail tSup))).Pairwise
        (fun a b => keyLeB a b = true) :=
  ⟨by decide, c5_sorted_master_keyorder npAquicksort (compiledPairDf tDetail tSup)
    (by decide)⟩

/- ------------------------------------------------------------------ -/
/- Concatenation lemmas; claims C1 and C2.                            -/
/- ------------------------------------------------------------------ -/

theorem pdConcat_rows_length (ts : List Table) :
    (pdConcat ts).rows.length = (ts.map (fun t => t.rows.length)).sum := by
  unfold pdConcat
  rw [List.length_flatten, List.map_map]
  congr 1
  apply List.map_congr_left
  intro t _
  simp

theorem unionCols_pair (d s : Table) :
    unionCols [d, s] = d.cols ++ s.cols.filter (fun c => !d.cols.contains c) := by
  have h1 : ([] : List String) ++ d.cols.filter (fun c => !List.contains [] c) = d.cols := by
    rw [List.nil_append]
    exact List.filter_eq_self.mpr (fun a _ => rfl)
  calc unionCols [d, s]
      = ([] ++ d.cols.filter (fun c => !List.contains [] c))
        ++ s.cols.filter (fun c =>
            !(([] ++ d.cols.filter (fun c => !List.contains [] c)).contains c)) := rfl
    _ = d.cols ++ s.cols.filter (fun c => !d.cols.contains c) := by rw [h1]

theorem compiledPair_rows (d s : Table) :
    (compiledPairDf d s).rows
      = d.rows.map (fun r => reindexRow d.cols r (unionCols [d, s]))
        ++ s.rows.map (fun r => reindexRow s.cols r (unionCols [d, s])) := by
  show ([d.rows.map (fun r => reindexRow d.cols r (unionCols [d, s])),
    s.rows.map (fun r => reindexRow s.cols r (unionCols [d, s]))]).flatten = _
  simp

theorem compiledPair_cols_mem (d s : Table) (c : String) :
    c ∈ (compiledPairDf d s).cols ↔ (c ∈ d.cols ∨ c ∈ s.cols) := by
  have h0 : (compiledPairDf d s).cols = unionCols [d, s] := rfl
  rw [h0, unionCols_pair, List.mem_append, List.mem_filter]
  constructor
  · rintro (h | ⟨h, _⟩)
    · exact Or.inl h
    · exact Or.inr h
  · rintro (h | h)
    · exact Or.inl h
    · by_cases hd : c ∈ d.cols
      · exact Or.inl hd
      · refine Or.inr ⟨h, ?_⟩
        simp only [Bool.not_eq_true']
        rw [show d.cols.contains c = d.cols.elem c from rfl]
        exact Bool.eq_false_iff.2 (fun he => hd (List.elem_iff.1 he))

theorem reindex_na (cols newCols : List String) (r : List Cell) (c : String)
    (hc : c ∉ cols) : getCell newCols (reindexRow cols r newCols) c = Cell.na := by
  unfold getCell
  cases h : colIdx newCols c with
  | none => rfl
  | some i =>
    have hlt := colIdx_lt newCols c i h
    have hgD : (reindexRow cols r newCols).getD i Cell.na
        = getCell cols r (newCols.getD i "") := by
      unfold reindexRow
      rw [List.getD_eq_getElem?_getD]
      have hlen : i < (newCols.map (getCell cols r)).length := by simpa using hlt
      rw [List.getElem?_eq_getElem hlen, List.getElem_map]
      rw [List.getD_eq_getElem?_getD, List.getElem?_eq_getElem hlt]
      rfl
    show (reindexRow cols r newCols).getD i Cell.na = Cell.na
    rw [hgD, colIdx_getD newCols c i h]
    unfold getCell
    rw [colIdx_none_of_not_mem cols c hc]

/-- C1: for a complete pair whose two files both parse, the compiled pair
table is the row-wise concatenation: its row count is the sum of the two
inputs' row counts, its column set is the union of the two inputs' column
sets, and a column absent from one input is filled with the missing marker
in that input's block of rows. -/
theorem c1_compiled_pair (load : String → Except String Table) (base dp sp : String)
    (dfD dfS : Table) (hd : load dp = Except.ok dfD) (hs : load sp = Except.ok dfS) :
    successTable load (base, PairPaths.mk (some dp) (some sp))
        = some (compiledPairDf dfD dfS)
    ∧ (compiledPairDf dfD dfS).rows.length = dfD.rows.length + dfS.rows.length
    ∧ (∀ c, c ∈ (compiledPairDf dfD dfS).cols ↔ (c ∈ dfD.cols ∨ c ∈ dfS.cols))
    ∧ (∀ c, c ∉ dfD.cols →
        ∀ row ∈ (compiledPairDf dfD dfS).rows.take dfD.rows.length,
          getCell (compiledPairDf dfD dfS).cols row c = Cell.na)
    ∧ (∀ c, c ∉ dfS.cols →
        ∀ row ∈ (compiledPairDf dfD dfS).rows.drop dfD.rows.length,
          getCell (compiledPairDf dfD dfS).cols row c = Cell.na) := by
  refine ⟨?_, ?_, compiledPair_cols_mem dfD dfS, ?_, ?_⟩
  · unfold successTable
    simp [hd, hs]
  · rw [compiledPair_rows]
    simp
  · intro c hc row hrow
    rw [compiledPair_rows] at hrow
    rw [show dfD.rows.length
        = (dfD.rows.map (fun r => reindexRow dfD.cols r (unionCols [dfD, dfS]))).length
      from (List.length_map _ _).symm, List.take_left] at hrow
    rcases List.mem_map.1 hrow with ⟨r, _, rfl⟩
    exact reindex_na dfD.cols _ r c hc
  · intro c hc row hrow
    rw [compiledPair_rows] at hrow
    rw [show dfD.rows.length
        = (dfD.rows.map (fun r => reindexRow dfD.cols r (unionCols [dfD, dfS]))).length
      from (List.length_map _ _).symm, List.drop_left] at hrow
    rcases List.mem_map.1 hrow with ⟨r, _, rfl⟩
    exact reindex_na dfS.cols _ r c hc

/-- Witness for C1 at the fixture pair. -/
theorem c1_witness :
    wLoad "d1" = Except.ok tDetail
    ∧ wLoad "s1" = Except.ok tSup
    ∧ (compiledPairDf tDetail tSup).rows.length = tDetail.rows.length + tSup.rows.length
    ∧ ("B" ∈ (compiledPairDf tDetail tSup).cols ↔ ("B" ∈ tDetail.cols ∨ "B" ∈ tSup.cols)) :=
  ⟨rfl, rfl, (c1_compiled_pair wLoad "X" "d1" "s1" tDetail tSup rfl rfl).2.1,
    (c1_compiled_pair wLoad "X" "d1" "s1" tDetail tSup rfl rfl).2.2.1 "B"⟩

theorem finalMaster_rows_sum (k : SortKernel) (ts : List Table) (hne : ts ≠ [])
    (hk : IsArgsortOf (k (kernelKeys (coercePartNo (pdConcat ts))))
      (kernelKeys (coercePartNo (pdConcat ts)))) :
    (finalMaster k ts).map (fun m => m.rows.length)
      = some ((ts.map (fun t => t.rows.length)).sum) := by
  cases ts with
  | nil => exact absurd rfl hne
  | cons t0 rest =>
    have h0 : finalMaster k (t0 :: rest)
        = some (if (pdConcat (t0 :: rest)).cols.contains "PART_NO"
            then masterSortStep k (pdConcat (t0 :: rest)) else pdConcat (t0 :: rest)) := rfl
    rw [h0, Option.map_some']
    congr 1
    by_cases hc : (pdConcat (t0 :: rest)).cols.contains "PART_NO"
    · rw [if_pos hc]
      show (sortValuesPartNo k (coercePartNo (pdConcat (t0 :: rest)))).rows.length = _
      rw [sortValues_length _ _ hk, coerce_rows_length, pdConcat_rows_length]
    · rw [if_neg hc, pdConcat_rows_length]

/-- C2: for a folder with at least one successfully compiled pair, the
persisted master's row count is the sum of the compiled pairs' row counts —
whether the PART_NO sort branch runs or not (coercion and sorting only
permute rows). -/
theorem c2_master_row_count (load : String → Except String Table) (k : SortKernel)
    (pairs : List (String × PairPaths))
    (hne : (compileFolderPairs load pairs).compiled ≠ [])
    (hk : IsArgsortOf
      (k (kernelKeys (coercePartNo (pdConcat (compileFolderPairs load pairs).compiled))))
      (kernelKeys (coercePartNo (pdConcat (compileFolderPairs load pairs).compiled)))) :
    (finalMaster k (compileFolderPairs load pairs).compiled).map (fun m => m.rows.length)
      = some (((compileFolderPairs load pairs).compiled.map (fun t => t.rows.length)).sum) :=
  finalMaster_rows_sum k _ hne hk

/-- Witness for C2 at the fixture folder (one compiled pair of 5 rows, one
failing pair, one incomplete group), with the real quicksort kernel. -/
theorem c2_witness :
    (compileFolderPairs wLoad wPairs).compiled ≠ []
    ∧ IsArgsortOf
        (npAquicksort (kernelKeys (coercePartNo
          (pdConcat (compileFolderPairs wLoad wPairs).compiled))))
        (kernelKeys (coercePartNo (pdConcat (compileFolderPairs wLoad wPairs).compiled)))
    ∧ (finalMaster npAquicksort (compileFolderPairs wLoad wPairs).compiled).map
        (fun m => m.rows.length)
      = some (((compileFolderPairs wLoad wPairs).compiled.map
          (fun t => t.rows.length)).sum) :=
  ⟨by decide, by decide, c2_master_row_count wLoad npAquicksort wPairs (by decide) (by decide)⟩

/- ------------------------------------------------------------------ -/
/- Step A characterisation; claim C6.                                 -/
/- ------------------------------------------------------------------ -/

theorem compileFolder_aux (load : String → Except String Table)
    (pairs : List (String × PairPaths)) (acc : FolderOutcome) :
    pairs.foldl (stepPair load) acc
      = ⟨acc.compiled ++ pairs.filterMap (successTable load),
         acc.pairsFound + (pairs.filter isCompletePair).length,
         acc.warnings ++ pairs.filterMap (warnedBase load)⟩ := by
  induction pairs generalizing acc with
  | nil => simp
  | cons bp rest ih =>
    rw [List.foldl_cons, ih]
    rcases bp with ⟨base, pp⟩
    rcases pp with ⟨od, os⟩
    cases od with
    | none =>
      simp [stepPair, successTable, isCompletePair, warnedBase,
        List.filterMap_cons, List.filter_cons]
    | some dp =>
      cases os with
      | none =>
        simp [stepPair, successTable, isCompletePair, warnedBase,
          List.filterMap_cons, List.filter_cons]
      | some sp =>
        cases hd : load dp with
        | ok d1 =>
          cases hs2 : load sp with
          | ok s1 =>
            simp only [stepPair, successTable, isCompletePair, warnedBase, hd, hs2,
              List.filterMap_cons, List.filter_cons, FolderOutcome.mk.injEq]
            refine ⟨by simp, by simp; omega, by simp⟩
          | error e =>
            simp only [stepPair, successTable, isCompletePair, warnedBase, hd, hs2,
              List.filterMap_cons, List.filter_cons, FolderOutcome.mk.injEq]
            refine ⟨by simp, by simp; omega, by simp⟩
        | error e =>
          simp only [stepPair, successTable, isCompletePair, warnedBase, hd,
            List.filterMap_cons, List.filter_cons]
          cases hs2 : load sp <;>
            · simp only [hs2, FolderOutcome.mk.injEq]
              refine ⟨by simp, by simp; omega, by simp⟩

theorem compileFolder_spec (load : String → Except String Table)
    (pairs : List (String × PairPaths)) :
    compileFolderPairs load pairs
      = ⟨pairs.filterMap (successTable load),
         (pairs.filter isCompletePair).length,
         pairs.filterMap (warnedBase load)⟩ := by
  unfold compileFolderPairs
  rw [compileFolder_aux]
  simp

/-- C6: when one file of a complete pair fails to load, that pair alone is
skipped: its base name is recorded as a warning, the folder's compiled list
is exactly the per-pair successes in order (so the run continues past the
failure), and every successful pair of the same folder is compiled and its
rows appear as a contiguous block of the folder master. -/
theorem c6_pair_failure_isolated (load : String → Except String Table)
    (pairs : List (String × PairPaths)) (base : String) (pp : PairPaths) (dp sp : String)
    (hmem : (base, pp) ∈ pairs) (hdp : pp.detail = some dp) (hsp : pp.sup = some sp)
    (hfail : successTable load (base, pp) = none) :
    base ∈ (compileFolderPairs load pairs).warnings
    ∧ (compileFolderPairs load pairs).compiled = pairs.filterMap (successTable load)
    ∧ ∀ bp ∈ pairs, ∀ tb, successTable load bp = some tb →
        tb ∈ (compileFolderPairs load pairs).compiled
        ∧ (tb.rows.map (fun r => reindexRow tb.cols r
            (unionCols (compileFolderPairs load pairs).compiled)))
          <:+: (pdConcat (compileFolderPairs load pairs).compiled).rows := by
  rw [compileFolder_spec]
  refine ⟨?_, rfl, ?_⟩
  · show base ∈ pairs.filterMap (warnedBase load)
    refine List.mem_filterMap.2 ⟨(base, pp), hmem, ?_⟩
    unfold warnedBase isCompletePair
    rw [hfail]
    simp [hdp, hsp]
  · intro bp hbp tb htb
    have hmem2 : tb ∈ pairs.filterMap (successTable load) :=
      List.mem_filterMap.2 ⟨bp, hbp, htb⟩
    refine ⟨hmem2, ?_⟩
    show (tb.rows.map (fun r => reindexRow tb.cols r
        (unionCols (pairs.filterMap (successTable load)))))
      <:+: (pdConcat (pairs.filterMap (successTable load))).rows
    exact List.infix_of_mem_flatten (List.mem_map_of_mem _ hmem2)

/-- Witness for C6: in the fixture folder the pair `Y` fails (its detail
file does not parse), is warned about, while the good pair `X` is still
compiled into the folder's list. -/
theorem c6_witness :
    ("Y", (⟨some "bad", some "s1"⟩ : PairPaths)) ∈ wPairs
    ∧ successTable wLoad ("Y", ⟨some "bad", some "s1"⟩) = none
    ∧ "Y" ∈ (compileFolderPairs wLoad wPairs).warnings
    ∧ compiledPairDf tDetail tSup ∈ (compileFolderPairs wLoad wPairs).compiled :=
  ⟨by decide, by decide,
    (c6_pair_failure_isolated wLoad wPairs "Y" ⟨some "bad", some "s1"⟩ "bad" "s1"
      (by decide) rfl rfl (by decide)).1,
    ((c6_pair_failure_isolated wLoad wPairs "Y" ⟨some "bad", some "s1"⟩ "bad" "s1"
      (by decide) rfl rfl (by decide)).2.2 ("X", ⟨some "d1", some "s1"⟩) (by decide)
      (compiledPairDf tDetail tSup) (by decide)).1⟩

/- ------------------------------------------------------------------ -/
/- Claims C7 and C8.                                                  -/
/- ------------------------------------------------------------------ -/

/-- C7: when the extraction root holds exactly one entry and it is a
directory, the scanner descends into it, otherwise it scans the root
directly; consequently an archive wrapped in a single top-level directory
scans to exactly the same folder map as the archive without the wrapper
(whenever the unwrapped contents are not themselves a single bare
directory, i.e. have "no such wrapper"). -/
theorem c7_wrapper_transparent (n : String) (es : List FSEntry)
    (hsd : isSingletonDir es = false) :
    effectiveEntries [FSEntry.dir n es] = es
    ∧ effectiveEntries es = es
    ∧ scanArchive [FSEntry.dir n es] = scanArchive es := by
  have h1 : effectiveEntries [FSEntry.dir n es] = es := rfl
  have h2 : effectiveEntries es = es := by
    cases es with
    | nil => rfl
    | cons e rest =>
      cases e with
      | file f => rfl
      | dir nm es2 =>
        cases rest with
        | nil => simp [isSingletonDir] at hsd
        | cons e2 rest2 => rfl
  refine ⟨h1, h2, ?_⟩
  unfold scanArchive
  rw [h1, h2]

/-- Witness for C7: a two-file archive, wrapped in directory `wrap`. -/
theorem c7_witness :
    isSingletonDir [FSEntry.file "a_e_detail.csv", FSEntry.file "a_e_sup.csv"] = false
    ∧ scanArchive [FSEntry.dir "wrap"
        [FSEntry.file "a_e_detail.csv", FSEntry.file "a_e_sup.csv"]]
      = scanArchive [FSEntry.file "a_e_detail.csv", FSEntry.file "a_e_sup.csv"] :=
  ⟨rfl, (c7_wrapper_transparent "wrap"
    [FSEntry.file "a_e_detail.csv", FSEntry.file "a_e_sup.csv"] rfl).2.2⟩

theorem processFolder_folder_name (load : String → Except String Table)
    (k : SortKernel) (f : String × List (String × PairPaths)) :
    ((processFolder load k f).2).folder = basename f.1 := by
  unfold processFolder
  split <;> rfl

theorem processFolder_no_pairs (load : String → Except String Table) (k : SortKernel)
    (fp : String) (pairs : List (String × PairPaths))
    (hz : completeCount pairs = 0) :
    (processFolder load k (fp, pairs)).1 = none
    ∧ (processFolder load k (fp, pairs)).2 = ⟨basename fp, 0, 0⟩ := by
  have hfilter : pairs.filter isCompletePair = [] := by
    have : (pairs.filter isCompletePair).length = 0 := hz
    exact List.length_eq_zero.1 this
  have hcomp : (compileFolderPairs load pairs).compiled = [] := by
    rw [compileFolder_spec]
    show pairs.filterMap (successTable load) = []
    rw [List.filterMap_eq_nil_iff]
    intro bp hbp
    cases hstb : successTable load bp with
    | none => rfl
    | some tb =>
      have hcp : isCompletePair bp = true := by
        rcases bp with ⟨b, ⟨od, os⟩⟩
        cases od with
        | none => simp [successTable] at hstb
        | some dpv =>
          cases os with
          | none => simp [successTable] at hstb
          | some spv => rfl
      have hmem : bp ∈ pairs.filter isCompletePair := List.mem_filter.2 ⟨hbp, hcp⟩
      rw [hfilter] at hmem
      simp at hmem
  have hpf : (compileFolderPairs load pairs).pairsFound = 0 := by
    rw [compileFolder_spec]
    show (pairs.filter isCompletePair).length = 0
    rw [hfilter]
    rfl
  constructor
  · show (processFolder load k (fp, pairs)).1 = none
    unfold processFolder
    rw [show ((fp, pairs).2) = pairs from rfl, hcomp]
    rfl
  · show (processFolder load k (fp, pairs)).2 = ⟨basename fp, 0, 0⟩
    unfold processFolder
    rw [show ((fp, pairs).2) = pairs from rfl, hcomp, hpf]
    rfl

/-- C8: the Reporter appends exactly one SummaryRow per scanned folder (one
per entry of the scanner's folder map, in order, named by the folder's
basename), and a folder with zero complete pairs produces no master write
and a summary row whose master row count (and pair count) is 0. -/
theorem c8_one_summary_per_folder (load : String → Except String Table)
    (k : SortKernel) (fm : List (String × List (String × PairPaths))) :
    ((runAll load k fm).2.length = fm.length)
    ∧ ((runAll load k fm).2.map (fun s => s.folder) = fm.map (fun f => basename f.1))
    ∧ (∀ fp pairs, (fp, pairs) ∈ fm → completeCount pairs = 0 →
        (processFolder load k (fp, pairs)).1 = none
        ∧ (processFolder load k (fp, pairs)).2 = ⟨basename fp, 0, 0⟩) := by
  refine ⟨by simp [runAll], ?_, ?_⟩
  · show ((fm.map (processFolder load k)).map (fun pr => pr.2)).map (fun s => s.folder)
      = fm.map (fun f => basename f.1)
    rw [List.map_map, List.map_map]
    apply List.map_congr_left
    intro f _
    exact processFolder_folder_name load k f
  · intro fp pairs _ hz
    exact processFolder_no_pairs load k fp pairs hz

/-- Witness for C8: folder `/root/B` of the fixture map has only an
incomplete group; it gets the summary row (B, 0, 0) and no master write,
while the map still yields one summary row per folder. -/
theorem c8_witness :
    ("/root/B", [("Q", (⟨some "d1", none⟩ : PairPaths))]) ∈ wFm
    ∧ completeCount [("Q", (⟨some "d1", none⟩ : PairPaths))] = 0
    ∧ (runAll wLoad npAquicksort wFm).2.length = wFm.length
    ∧ (processFolder wLoad npAquicksort ("/root/B", [("Q", ⟨some "d1", none⟩)])).1 = none
    ∧ basename "/root/B" = "B"
    ∧ (processFolder wLoad npAquicksort ("/root/B", [("Q", ⟨some "d1", none⟩)])).2
        = ⟨basename "/root/B", 0, 0⟩ :=
  ⟨by decide, by decide,
    (c8_one_summary_per_folder wLoad npAquicksort wFm).1,
    ((c8_one_summary_per_folder wLoad npAquicksort wFm).2.2 "/root/B"
      [("Q", ⟨some "d1", none⟩)] (by decide) (by decide)).1, by decide,
    ((c8_one_summary_per_folder wLoad npAquicksort wFm).2.2 "/root/B"
      [("Q", ⟨some "d1", none⟩)] (by decide) (by decide)).2⟩

/- ------------------------------------------------------------------ -/
/- Claim C9.                                                          -/
/- ------------------------------------------------------------------ -/

/-- C9: with a PART_NO column present the persisted master is not
value-preserving on it: the rows of the sorted master are a permutation of
the coerced concatenation, in which every row has its PART_NO cell replaced
by its numeric coercion while every other position is untouched, and a cell
that fails numeric parsing is serialised as the empty field (its original
text is gone). -/
theorem c9_partno_coerced (k : SortKernel) (m : Table) (i : Nat)
    (hc : colIdx m.cols "PART_NO" = some i)
    (hk : IsArgsortOf (k (kernelKeys (coercePartNo m))) (kernelKeys (coercePartNo m))) :
    (masterSortStep k m).rows.Perm ((coercePartNo m).rows)
    ∧ (coercePartNo m).rows
        = m.rows.map (fun r => r.set i (toNumericCell (r.getD i Cell.na)))
    ∧ (∀ r : List Cell, ∀ j, j ≠ i →
        (r.set i (toNumericCell (r.getD i Cell.na))).getD j Cell.na = r.getD j Cell.na)
    ∧ (∀ r : List Cell,
        (r.set i (toNumericCell (r.getD i Cell.na))).getD i Cell.na
          = toNumericCell (r.getD i Cell.na))
    ∧ (∀ s : String, parseIntStr s = none → csvCell (toNumericCell (Cell.str s)) = "") := by
  refine ⟨sortValues_perm k (coercePartNo m) hk, coerce_rows m i hc, ?_, ?_, ?_⟩
  · intro r j hj
    exact getD_set_ne r i j _ Cell.na (Ne.symm hj)
  · intro r
    exact coerceApply r i
  · intro s hps
    simp [toNumericCell, csvCell, hps]

/-- Witness for C9 at the fixture compiled pair: its PART_NO column is
column 0, the sorted master's rows are a permutation of the coerced rows,
and the unparseable value "abc" is persisted as the empty field. -/
theorem c9_witness :
    colIdx (compiledPairDf tDetail tSup).cols "PART_NO" = some 0
    ∧ IsArgsortOf
        (npAquicksort (kernelKeys (coercePartNo (compiledPairDf tDetail tSup))))
        (kernelKeys (coercePartNo (compiledPairDf tDetail tSup)))
    ∧ (masterSortStep npAquicksort (compiledPairDf tDetail tSup)).rows.Perm
        ((coercePartNo (compiledPairDf tDetail tSup)).rows)
    ∧ parseIntStr "abc" = none
    ∧ csvCell (toNumericCell (Cell.str "abc")) = "" :=
  ⟨by decide, by decide,
    (c9_partno_coerced npAquicksort (compiledPairDf tDetail tSup) 0 (by decide)
      (by decide)).1,
    by decide,
    (c9_partno_coerced npAquicksort (compiledPairDf tDetail tSup) 0 (by decide)
      (by decide)).2.2.2.2 "abc" (by decide)⟩

/- ------------------------------------------------------------------ -/
/- Output-store lemmas; claim C10.                                    -/
/- ------------------------------------------------------------------ -/

theorem two_le_countP (l : List α) (p : α → Bool) (i j : Nat) (a b : α)
    (hij : i < j) (hi : l[i]? = some a) (hj : l[j]? = some b)
    (hpa : p a) (hpb : p b) : 2 ≤ l.countP p := by
  induction l generalizing i j with
  | nil => simp at hi
  | cons x t ih =>
    cases i with
    | zero =>
      have hax : x = a := by simpa using hi
      cases j with
      | zero => omega
      | succ j2 =>
        have hj2 : t[j2]? = some b := by simpa using hj
        have hbmem : b ∈ t := List.getElem?_mem hj2
        have hpx : p x = true := by rw [hax]; exact hpa
        rw [List.countP_cons_of_pos p t hpx]
        have h1 : 0 < t.countP p := List.countP_pos_iff.2 ⟨b, hbmem, hpb⟩
        omega
    | succ i2 =>
      cases j with
      | zero => omega
      | succ j2 =>
        have hi2 : t[i2]? = some a := by simpa using hi
        have hj2 : t[j2]? = some b := by simpa using hj
        have hrec := ih i2 j2 (by omega) hi2 hj2
        rw [List.countP_cons]
        omega

theorem countP_filterMap (g : α → Option β) (q : β → Bool) (l : List α) :
    (l.filterMap g).countP q = l.countP (fun a => ((g a).map q).getD false) := by
  induction l with
  | nil => rfl
  | cons x t ih =>
    cases hg : g x with
    | none =>
      rw [List.filterMap_cons_none hg, ih, List.countP_cons]
      simp [hg]
    | some b =>
      rw [List.filterMap_cons_some hg, List.countP_cons, List.countP_cons, ih]
      simp [hg]

theorem length_filterMap_eq_countP (g : α → Option β) (l : List α) :
    (l.filterMap g).length = l.countP (fun a => (g a).isSome) := by
  induction l with
  | nil => rfl
  | cons x t ih =>
    cases hg : g x with
    | none =>
      rw [List.filterMap_cons_none hg, ih, List.countP_cons]
      simp [hg]
    | some b =>
      rw [List.filterMap_cons_some hg, List.length_cons, ih, List.countP_cons]
      simp [hg]

theorem upsert_keys_overwrite (st : List (String × Table)) (w : String × Table)
    (h : st.any (fun e => e.1 = w.1) = true) :
    (upsertStore st w).map (fun e => e.1) = st.map (fun e => e.1) := by
  unfold upsertStore
  rw [if_pos h, List.map_map]
  apply List.map_congr_left
  intro e _
  by_cases he : e.1 = w.1
  · simp [he]
  · simp [he]

theorem upsert_keys_append (st : List (String × Table)) (w : String × Table)
    (h : ¬ (st.any (fun e => e.1 = w.1) = true)) :
    (upsertStore st w).map (fun e => e.1) = st.map (fun e => e.1) ++ [w.1] := by
  unfold upsertStore
  rw [if_neg h]
  simp

theorem any_eq_false_keys (st : List (String × Table)) (w : String × Table)
    (h : ¬ (st.any (fun e => e.1 = w.1) = true)) :
    w.1 ∉ st.map (fun e => e.1) := by
  intro hmem
  rcases List.mem_map.1 hmem with ⟨e, he, hkey⟩
  exact h (List.any_eq_true.2 ⟨e, he, by simp [hkey]⟩)

theorem foldl_upsert_keys_nodup (ws : List (String × Table)) :
    ∀ st : List (String × Table), ((st.map (fun e => e.1)).Nodup) →
      (((ws.foldl upsertStore st).map (fun e => e.1))).Nodup := by
  induction ws with
  | nil => intro st hst; exact hst
  | cons w rest ih =>
    intro st hst
    rw [List.foldl_cons]
    apply ih
    by_cases hany : st.any (fun e => e.1 = w.1) = true
    · rw [upsert_keys_overwrite st w hany]
      exact hst
    · rw [upsert_keys_append st w hany]
      rw [List.nodup_append]
      refine ⟨hst, List.nodup_singleton _, ?_⟩
      intro x hx hx2
      rw [List.mem_singleton] at hx2
      exact any_eq_false_keys st w hany (hx2 ▸ hx)

theorem foldl_upsert_keys_subset (ws : List (String × Table)) :
    ∀ st : List (String × Table), ∀ x ∈ (ws.foldl upsertStore st).map (fun e => e.1),
      x ∈ st.map (fun e => e.1) ++ ws.map (fun e => e.1) := by
  induction ws with
  | nil => intro st x hx; simpa using hx
  | cons w rest ih =>
    intro st x hx
    rw [List.foldl_cons] at hx
    have hx2 := ih (upsertStore st w) x hx
    rcases List.mem_append.1 hx2 with h1 | h2
    · by_cases hany : st.any (fun e => e.1 = w.1) = true
      · rw [upsert_keys_overwrite st w hany] at h1
        exact List.mem_append.2 (Or.inl h1)
      · rw [upsert_keys_append st w hany] at h1
        rcases List.mem_append.1 h1 with h3 | h4
        · exact List.mem_append.2 (Or.inl h3)
        · rw [List.mem_singleton] at h4
          refine List.mem_append.2 (Or.inr ?_)
          rw [h4, List.map_cons]
          exact List.mem_cons_self _ _
    · refine List.mem_append.2 (Or.inr ?_)
      rw [List.map_cons]
      exact List.mem_cons_of_mem _ h2

theorem toFinset_card_lt_of_dup (l : List String) (hnd : ¬ l.Nodup) :
    l.toFinset.card < l.length := by
  induction l with
  | nil => exact absurd List.nodup_nil hnd
  | cons a t ih =>
    by_cases ha : a ∈ t
    · rw [List.toFinset_cons, Finset.insert_eq_self.2 (List.mem_toFinset.2 ha)]
      have hle := List.toFinset_card_le t
      simp only [List.length_cons]
      omega
    · have hnt : ¬ t.Nodup := by
        intro hn
        exact hnd (List.nodup_cons.2 ⟨ha, hn⟩)
      have h1 := ih hnt
      have hcard := Finset.card_insert_le a t.toFinset
      rw [List.toFinset_cons]
      simp only [List.length_cons]
      omega

theorem nodup_subset_length_lt (l1 l2 : List String) (h1 : l1.Nodup)
    (hsub : ∀ x ∈ l1, x ∈ l2) (h2 : ¬ l2.Nodup) : l1.length < l2.length := by
  have e1 : l1.toFinset.card = l1.length := List.toFinset_card_of_nodup h1
  have hle : l1.toFinset ⊆ l2.toFinset := by
    intro x hx
    exact List.mem_toFinset.2 (hsub x (List.mem_toFinset.1 hx))
  have h3 := Finset.card_le_card hle
  have h4 := toFinset_card_lt_of_dup l2 h2
  omega

theorem find_overwrite_found (t : List (String × Table)) (w : String × Table)
    (hex : ∃ e ∈ t, e.1 = w.1) :
    (t.map (fun e => if e.1 = w.1 then w else e)).find? (fun e => e.1 = w.1)
      = some w := by
  induction t with
  | nil => simp at hex
  | cons e t2 ih =>
    rw [List.map_cons]
    by_cases he : e.1 = w.1
    · rw [if_pos he]
      exact List.find?_cons_of_pos _ (by simp)
    · rw [if_neg he]
      rw [List.find?_cons_of_neg _ (by simp [he])]
      apply ih
      rcases hex with ⟨e2, he2, hk⟩
      rcases List.mem_cons.1 he2 with rfl | hmem
      · exact absurd hk he
      · exact ⟨e2, hmem, hk⟩

theorem find_overwrite_other (t : List (String × Table)) (w : String × Table)
    (p : String) (hp : ¬ (w.1 = p)) :
    (t.map (fun e => if e.1 = w.1 then w else e)).find? (fun e => e.1 = p)
      = t.find? (fun e => e.1 = p) := by
  induction t with
  | nil => rfl
  | cons e t2 ih =>
    rw [List.map_cons]
    by_cases he : e.1 = w.1
    · rw [if_pos he]
      rw [List.find?_cons_of_neg _ (by simp [hp])]
      rw [List.find?_cons_of_neg _ (by simp [he ▸ hp])]
      exact ih
    · rw [if_neg he]
      by_cases hep : e.1 = p
      · rw [List.find?_cons_of_pos _ (by simp [hep]),
          List.find?_cons_of_pos _ (by simp [hep])]
      · rw [List.find?_cons_of_neg _ (by simp [hep]),
          List.find?_cons_of_neg _ (by simp [hep])]
        exact ih

theorem lookup_upsert (st : List (String × Table)) (w : String × Table) (p : String) :
    lookupStore (upsertStore st w) p
      = if w.1 = p then some w.2 else lookupStore st p := by
  unfold upsertStore
  by_cases hany : st.any (fun e => e.1 = w.1) = true
  · rw [if_pos hany]
    by_cases hp : w.1 = p
    · rw [if_pos hp]
      unfold lookupStore
      have hex : ∃ e ∈ st, e.1 = w.1 := by
        rcases List.any_eq_true.1 hany with ⟨e, he, hk⟩
        exact ⟨e, he, by simpa using hk⟩
      rw [← hp, find_overwrite_found st w hex]
      rfl
    · rw [if_neg hp]
      unfold lookupStore
      rw [find_overwrite_other st w p hp]
  · rw [if_neg hany]
    unfold lookupStore
    rw [List.find?_append]
    have hstnone : ∀ e ∈ st, ¬ (e.1 = w.1) := by
      intro e he hk
      exact hany (List.any_eq_true.2 ⟨e, he, by simp [hk]⟩)
    by_cases hp : w.1 = p
    · rw [if_pos hp]
      have h1 : st.find? (fun e => e.1 = p) = none := by
        rw [List.find?_eq_none]
        intro e he
        simp only [decide_eq_true_eq]
        intro hk
        exact hstnone e he (by rw [hk, hp])
      rw [h1]
      rw [List.find?_cons_of_pos _ (by simp [hp])]
      rfl
    · rw [if_neg hp]
      have h2 : List.find? (fun e => e.1 = p) [w] = none := by
        rw [List.find?_eq_none]
        intro e he
        rw [List.mem_singleton] at he
        simp [he, hp]
      rw [h2]
      cases hst : st.find? (fun e => e.1 = p) <;> rfl

theorem lookup_writeAll (ws : List (String × Table)) :
    ∀ (st : List (String × Table)) (p : String),
      lookupStore (ws.foldl upsertStore st) p
        = match (ws.filter (fun w => w.1 = p)).getLast? with
          | some w => some w.2
          | none => lookupStore st p := by
  induction ws with
  | nil => intro st p; rfl
  | cons w rest ih =>
    intro st p
    rw [List.foldl_cons, ih]
    by_cases hp : w.1 = p
    · rw [List.filter_cons_of_pos (by simp [hp])]
      cases hF : rest.filter (fun w => w.1 = p) with
      | nil =>
        show lookupStore (upsertStore st w) p = some w.2
        rw [lookup_upsert, if_pos hp]
      | cons f0 F2 =>
        rw [List.getLast?_cons_cons]
        cases hv : (f0 :: F2).getLast? with
        | some v => rfl
        | none => simp at hv
    · rw [List.filter_cons_of_neg (by simp [hp])]
      cases hF : (rest.filter (fun w => w.1 = p)).getLast? with
      | some v => rfl
      | none =>
        show lookupStore (upsertStore st w) p = lookupStore st p
        rw [lookup_upsert, if_neg hp]

theorem processFolder_write_path (load : String → Except String Table)
    (k : SortKernel) (f : String × List (String × PairPaths)) (w : String × Table)
    (hw : (processFolder load k f).1 = some w) :
    w.1 = outputRelPath (basename f.1) := by
  unfold processFolder at hw
  split at hw
  · simp only [Option.some.injEq] at hw
    rw [← hw]
  · simp at hw

theorem runAll_writes_length (load : String → Except String Table) (k : SortKernel)
    (fm : List (String × List (String × PairPaths))) :
    (runAll load k fm).1.length
      = fm.countP (fun f => ((processFolder load k f).1).isSome) := by
  show ((fm.map (processFolder load k)).filterMap (fun pr => pr.1)).length = _
  rw [length_filterMap_eq_countP, List.countP_map]
  rfl

/-- C10: output paths are keyed by folder basename only.  Two distinct
scanned folders with the same basename write their masters to the same
clean-output path; the final output tree maps that path to the last write
(the later-processed folder overwrites the earlier one), and it holds fewer
files than the number of master-producing folders. -/
theorem c10_basename_collision (load : String → Except String Table) (k : SortKernel)
    (fm : List (String × List (String × PairPaths))) (i j : Nat)
    (fpi fpj : String) (psi psj : List (String × PairPaths))
    (hij : i < j) (hi : fm[i]? = some (fpi, psi)) (hj : fm[j]? = some (fpj, psj))
    (hne : fpi ≠ fpj) (hbase : basename fpi = basename fpj)
    (hwi : ((processFolder load k (fpi, psi)).1).isSome = true)
    (hwj : ((processFolder load k (fpj, psj)).1).isSome = true) :
    ((processFolder load k (fpi, psi)).1.map (fun w => w.1))
        = some (outputRelPath (basename fpi))
    ∧ ((processFolder load k (fpj, psj)).1.map (fun w => w.1))
        = some (outputRelPath (basename fpi))
    ∧ lookupStore (writeAll (runAll load k fm).1) (outputRelPath (basename fpi))
        = (match ((runAll load k fm).1.filter
            (fun w => w.1 = outputRelPath (basename fpi))).getLast? with
           | some w => some w.2
           | none => none)
    ∧ (runAll load k fm).1.length
        = fm.countP (fun f => ((processFolder load k f).1).isSome)
    ∧ (writeAll (runAll load k fm).1).length < (runAll load k fm).1.length := by
  have hpi : ((processFolder load k (fpi, psi)).1.map (fun w => w.1))
      = some (outputRelPath (basename fpi)) := by
    cases hv : (processFolder load k (fpi, psi)).1 with
    | none => rw [hv] at hwi; simp at hwi
    | some w =>
      rw [Option.map_some']
      rw [processFolder_write_path load k (fpi, psi) w hv]
  have hpj : ((processFolder load k (fpj, psj)).1.map (fun w => w.1))
      = some (outputRelPath (basename fpi)) := by
    cases hv : (processFolder load k (fpj, psj)).1 with
    | none => rw [hv] at hwj; simp at hwj
    | some w =>
      rw [Option.map_some']
      rw [processFolder_write_path load k (fpj, psj) w hv, hbase]
  refine ⟨hpi, hpj, ?_, runAll_writes_length load k fm, ?_⟩
  · show lookupStore (((runAll load k fm).1).foldl upsertStore [])
        (outputRelPath (basename fpi)) = _
    rw [lookup_writeAll]
    cases hF : (((runAll load k fm).1).filter
        (fun w => w.1 = outputRelPath (basename fpi))).getLast? with
    | some v => rfl
    | none => rfl
  · -- at least two writes share the collision path
    have hcnt : 2 ≤ ((runAll load k fm).1).countP
        (fun w => w.1 = outputRelPath (basename fpi)) := by
      show 2 ≤ ((fm.map (processFolder load k)).filterMap (fun pr => pr.1)).countP
        (fun w => w.1 = outputRelPath (basename fpi))
      rw [countP_filterMap, List.countP_map]
      apply two_le_countP fm _ i j (fpi, psi) (fpj, psj) hij hi hj
      · show ((((processFolder load k (fpi, psi)).1).map
          (fun w => decide (w.1 = outputRelPath (basename fpi)))).getD false) = true
        cases hv : (processFolder load k (fpi, psi)).1 with
        | none => rw [hv] at hwi; simp at hwi
        | some w =>
          have hpath := processFolder_write_path load k (fpi, psi) w hv
          simp [hpath]
      · show ((((processFolder load k (fpj, psj)).1).map
          (fun w => decide (w.1 = outputRelPath (basename fpi)))).getD false) = true
        cases hv : (processFolder load k (fpj, psj)).1 with
        | none => rw [hv] at hwj; simp at hwj
        | some w =>
          have hpath := processFolder_write_path load k (fpj, psj) w hv
          simp [hpath, hbase]
    have hdup : ¬ (((runAll load k fm).1).map (fun w => w.1)).Nodup := by
      intro hnd
      have hc1 : (((runAll load k fm).1).map (fun w => w.1)).countP
          (fun s => s = outputRelPath (basename fpi))
          = ((runAll load k fm).1).countP
              (fun w => w.1 = outputRelPath (basename fpi)) := by
        rw [List.countP_map]
        rfl
      have hc2 := List.nodup_iff_count_le_one.1 hnd (outputRelPath (basename fpi))
      rw [List.count_eq_countP] at hc2
      have hc3 : (((runAll load k fm).1).map (fun w => w.1)).countP
          (fun s => s = outputRelPath (basename fpi))
          = (((runAll load k fm).1).map (fun w => w.1)).countP
              (· == outputRelPath (basename fpi)) := by
        apply List.countP_congr
        intro x _
        constructor
        · intro hx
          simp only [decide_eq_true_eq] at hx
          simp [hx]
        · intro hx
          simp only [beq_iff_eq] at hx
          simp [hx]
      omega
    have hnodup := foldl_upsert_keys_nodup ((runAll load k fm).1) [] (by simp)
    have hsub : ∀ x ∈ (writeAll (runAll load k fm).1).map (fun e => e.1),
        x ∈ ((runAll load k fm).1).map (fun e => e.1) := by
      intro x hx
      have := foldl_upsert_keys_subset ((runAll load k fm).1) [] x hx
      simpa using this
    have hlt := nodup_subset_length_lt _ _ hnodup hsub hdup
    rw [List.length_map, List.length_map] at hlt
    exact hlt

/-- Witness for C10: the fixture map `cFm` holds the distinct folders
`/a/X` and `/b/X`, both with one complete pair and basename `X`; both
masters target the same clean-output path and the final output tree holds
fewer files than the number of master-producing folders. -/
theorem c10_witness :
    cFm[0]? = some ("/a/X", [("p", (⟨some "d1", some "s1"⟩ : PairPaths))])
    ∧ cFm[1]? = some ("/b/X", [("q", (⟨some "d1", some "s1"⟩ : PairPaths))])
    ∧ ("/a/X" : String) ≠ "/b/X"
    ∧ basename "/a/X" = basename "/b/X"
    ∧ ((processFolder wLoad npAquicksort
        ("/a/X", [("p", ⟨some "d1", some "s1"⟩)])).1).isSome = true
    ∧ ((processFolder wLoad npAquicksort
        ("/a/X", [("p", ⟨some "d1", some "s1"⟩)])).1.map (fun w => w.1))
        = some (outputRelPath (basename "/a/X"))
    ∧ ((processFolder wLoad npAquicksort
        ("/b/X", [("q", ⟨some "d1", some "s1"⟩)])).1.map (fun w => w.1))
        = some (outputRelPath (basename "/a/X"))
    ∧ (writeAll (runAll wLoad npAquicksort cFm).1).length
        < (runAll wLoad npAquicksort cFm).1.length :=
  ⟨by decide, by decide, by decide, by decide, by decide,
    (c10_basename_collision wLoad npAquicksort cFm 0 1 "/a/X" "/b/X"
      [("p", ⟨some "d1", some "s1"⟩)] [("q", ⟨some "d1", some "s1"⟩)]
      (by decide) (by decide) (by decide) (by decide) (by decide)
      (by decide) (by decide)).1,
    (c10_basename_collision wLoad npAquicksort cFm 0 1 "/a/X" "/b/X"
      [("p", ⟨some "d1", some "s1"⟩)] [("q", ⟨some "d1", some "s1"⟩)]
      (by decide) (by decide) (by decide) (by decide) (by decide)
      (by decide) (by decide)).2.1,
    (c10_basename_collision wLoad npAquicksort cFm 0 1 "/a/X" "/b/X"
      [("p", ⟨some "d1", some "s1"⟩)] [("q", ⟨some "d1", some "s1"⟩)]
      (by decide) (by decide) (by decide) (by decide) (by decide)
      (by decide) (by decide)).2.2.2.2⟩
